import Mathlib

/-!
Verification of the orchestration-framework plan compiler and replan loop.

Shallow embedding of `agent_gateway/gateway/gateway.py` and
`agent_gateway/gateway/output_parser.py` from the orchestration-framework
repository, together with proofs about the embedded definitions.

Conventions used throughout:
* Python text is modelled as Lean `String`; character-level scanning is done
  on `String.data` (`List Char`).  Python `str.find` is modelled as an
  `Option Nat` (Python's `-1` sentinel becomes `none`).
* Python decimal-digit id strings are modelled by their numeric value
  (`Nat`); `str(n)` is modelled by `natDigits n`, the standard base-10
  rendering.
* Fallible Python code (raised exceptions) is modelled with `Except`.
* Python dicts keyed by ids are modelled as insertion-ordered association
  lists with overwrite-on-assignment (`upsert`).
-/

/-! ## Character and string utilities -/

/-- Does the second list start with the first one?  Models Python substring
matching at a fixed position. -/
def listStarts : List Char → List Char → Bool
  | [], _ => true
  | _ :: _, [] => false
  | p :: ps, c :: cs => p = c && listStarts ps cs

/-- First index at or after `i` where `pat` occurs in the list; models
Python `str.find` (with `none` for Python's `-1`). -/
def findSubFrom (pat : List Char) : List Char → Nat → Option Nat
  | [], i => if pat = [] then some i else none
  | c :: t, i =>
    if listStarts pat (c :: t) then some i else findSubFrom pat t (i + 1)

/-- Models Python's `in` substring test. -/
def containsSub (pat : List Char) (s : List Char) : Bool :=
  (findSubFrom pat s 0).isSome

/-- Python `str.isspace` characters relevant to `str.strip` (ASCII subset;
the source never produces non-ASCII whitespace). -/
def pyIsSpace (c : Char) : Bool :=
  c = ' ' || c = '\n' || c = '\t' || c = '\x0b' || c = '\x0c' || c = '\r'

/-- Models Python `str.strip()`. -/
def pyStrip (s : String) : String :=
  String.mk (((s.data.dropWhile pyIsSpace).reverse.dropWhile pyIsSpace).reverse)

/-- Models Python `"".join(xs)`. -/
def pyJoin (xs : List String) : String :=
  xs.foldl (fun a b => a ++ b) ""

/-- Numeric value of a list of decimal digits; models Python `int()` on the
digit strings captured by the id regex. -/
def natOfDigits (ds : List Char) : Nat :=
  ds.foldl (fun a c => a * 10 + (c.toNat - 48)) 0

/-- Decimal digit character. -/
def digitChar (n : Nat) : Char := Char.ofNat (48 + n)

/-- Fuel-driven base-10 rendering (the fuel strictly dominates the number,
so it never runs out; structural recursion keeps the definition
kernel-reducible). -/
def natDigitsAux : Nat → Nat → List Char
  | 0, _ => []
  | fuel + 1, n =>
    if n < 10 then [digitChar n]
    else natDigitsAux fuel (n / 10) ++ [digitChar (n % 10)]

/-- Base-10 rendering of a natural number; models Python `str(n)`. -/
def natDigits (n : Nat) : List Char := natDigitsAux (n + 1) n

/-! ## Fusion-output parsing (`gateway.py`)

`Agent._extract_answer` and `Agent._parse_fusion_output`. -/

/-- Modelled from the spec: `agent_gateway/gateway/constants.py` is not under
`src/`; the spec states that the replan flag is set exactly when the fuser
text contains the word "Replan", so the sentinel `FUSION_REPLAN` imported by
`gateway.py` is the string "Replan". -/
def FUSION_REPLAN : String := "Replan"

/-- The parenthesis-counting loop of `_extract_answer`: starting at absolute
index `i` with open-count `count`, return the absolute index of the closing
parenthesis that brings the count to zero, or `none` if the list ends first
(Python's `for ... else` branch). -/
def findClose : List Char → Nat → Nat → Option Nat
  | [], _, _ => none
  | c :: rest, count, i =>
    if c = '(' then findClose rest (count + 1) (i + 1)
    else if c = ')' then
      if count = 1 then some i else findClose rest (count - 1) (i + 1)
    else findClose rest count (i + 1)

/-- Embeds `Agent._extract_answer`.  Note the source compares the index of
"Replan" with `1` (not with `-1`, Python's not-found sentinel): the
`None` branch is taken only when "Replan" occurs at index exactly 1. -/
def extract_answer (raw_answer : String) : Option String :=
  let cs := raw_answer.data
  match findSubFrom ("Action: Finish(".data) cs 0 with
  | some s0 =>
    let start := s0 + ("Action: Finish(".data).length
    match findClose (cs.drop start) 1 start with
    | some endIdx => some (String.mk ((cs.drop start).take (endIdx - start)))
    | none => none
  | none =>
    if findSubFrom ("Replan".data) cs 0 = some 1 then none
    else some "Replan required. Consider rephrasing your question."

/-- Lazy scan for the regex `Thought: (.*?)\n\n` after the literal prefix:
collect non-newline characters until a blank line; fail on a lone newline
or end of input. -/
def thoughtScan : List Char → Option (List Char)
  | [] => none
  | ['\n'] => none
  | '\n' :: '\n' :: _ => some []
  | '\n' :: _ :: _ => none
  | c :: rest => (thoughtScan rest).map (fun t => c :: t)

/-- Models `re.search` of the pattern `Thought: (.*?)\n\n`: try each start
position left to right. -/
def extract_thought : List Char → Option (List Char)
  | [] => none
  | c :: rest =>
    if listStarts ("Thought: ".data) (c :: rest) then
      match thoughtScan ((c :: rest).drop ("Thought: ".data).length) with
      | some t => some t
      | none => extract_thought rest
    else extract_thought rest

/-- Python exceptions surfaced by the embedded fragments. -/
inductive PyErr where
  | typeErrorNoneIter : PyErr
  | outputParserError : String → PyErr
  | nameErrorAnswer : PyErr
  deriving DecidableEq, Repr

instance {ε α : Type} [DecidableEq ε] [DecidableEq α] : DecidableEq (Except ε α) :=
  fun x y =>
  match x, y with
  | .ok a, .ok b =>
    if h : a = b then .isTrue (congrArg Except.ok h)
    else .isFalse (fun hh => h (Except.ok.inj hh))
  | .error a, .error b =>
    if h : a = b then .isTrue (congrArg Except.error h)
    else .isFalse (fun hh => h (Except.error.inj hh))
  | .ok _, .error _ => .isFalse (fun hh => Except.noConfusion hh)
  | .error _, .ok _ => .isFalse (fun hh => Except.noConfusion hh)

/-- Embeds `Agent._parse_fusion_output`: extract the thought and answer and compute
the replan flag.  When `_extract_answer` returns `None`, the membership test
`FUSION_REPLAN in answer` raises `TypeError` in Python, modelled as
`Except.error`. -/
def parse_fusion_output (raw_answer : String) :
    Except PyErr (Option String × String × Bool) :=
  let thought := (extract_thought raw_answer.data).map String.mk
  match extract_answer raw_answer with
  | none => .error .typeErrorNoneIter
  | some answer =>
    .ok (thought, answer, containsSub FUSION_REPLAN.data answer.data)

/-! ## Plan parsing (`output_parser.py`) -/

/-- Opening brace character (written via its code point so that it never
appears literally in the file). -/
def lbrace : Char := Char.ofNat 123

/-- Closing brace character. -/
def rbrace : Char := Char.ofNat 125

/-- Single-quote character. -/
def squote : Char := Char.ofNat 39

/-- One record captured by the plan tokenizer regex
`(?:Thought: ([^\n]*)\n)?\n*(\d+)\. (\w+)\((.*?)\)(\s*#\w+\n)?`:
the optional thought, the decimal id (modelled by its numeric value), the
operation name, and the raw argument string.  The fifth captured group (an
optional trailing `#tag`) is dropped by the renumbering pass and never read
afterwards, so it is not modelled. -/
structure PRec where
  thought : String
  idx : Nat
  name : String
  args : String
  deriving DecidableEq, Repr

/-- Insertion-ordered id-remap table with overwrite-on-assignment; models
the Python dict `index_mapping` (which is keyed by the decimal id strings,
here modelled by their numeric values). -/
def upsert (m : List (Nat × Nat)) (k v : Nat) : List (Nat × Nat) :=
  match m with
  | [] => [(k, v)]
  | (k', v') :: rest => if k' = k then (k, v) :: rest else (k', v') :: upsert rest k v

/-- Dict lookup, `none` when the key is absent. -/
def mapGet (m : List (Nat × Nat)) (k : Nat) : Option Nat :=
  match m with
  | [] => none
  | (k', v') :: rest => if k' = k then some v' else mapGet rest k

/-- The f-string prompt built by `_create_summarization_step`. -/
def summarizationPrompt (context : String) (index : Nat) : String :=
  "Concisely give me " ++ context ++ " ONLY using the following context: $" ++
    String.mk (natDigits index) ++ ". DO NOT include any other rationale."

/-- Embeds `_create_summarization_step`: the synthetic summarize record, with id
`index + 1` and the generated prompt as its argument. -/
def create_summarization_step (context : String) (index : Nat) : PRec :=
  ⟨"I need to concisely summarize the cortex search output", index + 1,
   "summarize", summarizationPrompt context index⟩

/-- The insertion trigger of `_initialize_task_list`: the operation name
contains "cortexsearch" and the record is not the second-to-last one
(Python `i != len(matches) - 2`; for natural `i` and `n` this is
`i + 2 != n`, which also agrees with Python when `n < 2`). -/
def summTrigger (n : Nat) (r : PRec) (i : Nat) : Bool :=
  containsSub ("cortexsearch".data) r.name.data && (i + 2 != n)

/-- The loop body of `_initialize_task_list`, with the enumeration index
`i`, the running counter `c` (`current_index`), the remap table `mp` and
the accumulated renumbered records `acc` made explicit.  `n` is the length
of the full input list (Python `len(matches)`). -/
def initAux (n : Nat) : List PRec → Nat → Nat → List (Nat × Nat) → List PRec →
    List PRec × List (Nat × Nat)
  | [], _, _, mp, acc => (acc, mp)
  | r :: rest, i, c, mp, acc =>
    let mp1 := upsert mp r.idx c
    let acc1 := acc ++ [⟨r.thought, c, r.name, r.args⟩]
    if summTrigger n r i then
      initAux n rest (i + 1) (c + 2) (upsert mp1 r.idx (c + 1))
        (acc1 ++ [create_summarization_step r.args c])
    else
      initAux n rest (i + 1) (c + 1) mp1 acc1

/-- Embeds `_initialize_task_list`: renumber the records contiguously from 1,
inserting a synthetic summarize step after each triggering record, and
build the original-id-to-new-id remap table. -/
def init_task_list (ms : List PRec) : List PRec × List (Nat × Nat) :=
  initAux ms.length ms 0 1 [] []

/-- The replacement used by `_update_task_references` — a dollar sign
followed by `index_mapping.get(m.group(1), m.group(1))`: the remapped id
when the digits are a key of the table, the original digits otherwise. -/
def dollarRepl (mp : List (Nat × Nat)) (ds : List Char) : List Char :=
  match mapGet mp (natOfDigits ds) with
  | some v => natDigits v
  | none => ds

/-- The regex substitution `re.sub(r"\$(\d+)", ...)` of
`_update_task_references`, as a left-to-right scanner.  The second argument
is the scanner state: `none` outside a candidate match, `some ds` after a
dollar sign with digits `ds` collected so far.  Note the pattern has no
optional braces: only bare `$N` references are rewritten. -/
def subDollarAux (mp : List (Nat × Nat)) : List Char → Option (List Char) → List Char
  | [], none => []
  | [], some ds => if ds = [] then ['$'] else '$' :: dollarRepl mp ds
  | c :: rest, none =>
    if c = '$' then subDollarAux mp rest (some [])
    else c :: subDollarAux mp rest none
  | c :: rest, some ds =>
    if c.isDigit then subDollarAux mp rest (some (ds ++ [c]))
    else
      (if ds = [] then ['$'] else '$' :: dollarRepl mp ds) ++
        (if c = '$' then subDollarAux mp rest (some [])
         else c :: subDollarAux mp rest none)

/-- Embeds `_update_task_references`: rewrite the `$N` references of a record's
argument string through the remap table. -/
def update_task_references (r : PRec) (mp : List (Nat × Nat)) : PRec :=
  ⟨r.thought, r.idx, r.name, String.mk (subDollarAux mp r.args.data none)⟩

/-- Embeds `_update_task_list_with_summarization`: renumbering/insertion pass
followed by the reference-rewriting pass over every record (including the
synthetic ones). -/
def update_task_list_with_summarization (ms : List PRec) : List PRec :=
  let p := init_task_list ms
  p.1.map (fun r => update_task_references r p.2)

/-- Models `re.findall(ID_PATTERN, args)` for `ID_PATTERN = \$\{?(\d+)\}?`, as a
left-to-right scanner returning the numeric values of the captured digit
groups.  The state records, inside a candidate match, whether an opening
brace was consumed and the digits collected so far. -/
def idScanAux : List Char → Option (Bool × List Char) → List Nat
  | [], none => []
  | [], some p => if p.2 = [] then [] else [natOfDigits p.2]
  | c :: rest, none =>
    if c = '$' then idScanAux rest (some (false, []))
    else idScanAux rest none
  | c :: rest, some p =>
    if c.isDigit then idScanAux rest (some (p.1, p.2 ++ [c]))
    else if p.1 = false && p.2 = [] && c = lbrace then idScanAux rest (some (true, []))
    else if p.2 = [] then
      if c = '$' then idScanAux rest (some (false, []))
      else idScanAux rest none
    else
      natOfDigits p.2 ::
        (if c = rbrace then idScanAux rest none
         else if c = '$' then idScanAux rest (some (false, []))
         else idScanAux rest none)

/-- The numbers referenced by an argument string under `ID_PATTERN`. -/
def idMatches (args : List Char) : List Nat := idScanAux args none

/-- Embeds `default_dependency_rule`: `idx` occurs among the ids referenced by the
argument string. -/
def default_dependency_rule (idx : Nat) (args : String) : Bool :=
  (idMatches args.data).contains idx

/-- Embeds `_get_dependencies_from_graph`: the terminal operation depends on all
prior ids; any other operation depends on the prior ids selected by the
dependency rule.  `List.range' 1 (idx - 1)` is Python `range(1, idx)`. -/
def get_dependencies_from_graph (idx : Nat) (tool_name : String) (args : String) :
    List Nat :=
  if tool_name = "fuse" then List.range' 1 (idx - 1)
  else (List.range' 1 (idx - 1)).filter (fun i => default_dependency_rule i args)

/-- Parsed argument values. -/
inductive PyObj where
  | PInt : Int → PyObj
  | PStr : String → PyObj
  deriving DecidableEq, Repr

/-- Modelled from Python stdlib `ast.literal_eval` (an external collaborator,
not repository code), restricted to the literal shapes the embedded claims
exercise: a nonempty all-digit string evaluates to the integer it denotes; a
triple-double-quoted string (the shape produced by the multiline re-quoting
in `_parse_llm_compiler_action_args`) whose body contains no quote and no
backslash evaluates to its body; every other input fails, triggering the
caller's fallback.  Floats, containers, and quoted literals that would
succeed in full Python are not modelled; no theorem below depends on them. -/
def pyLiteralEval (s : String) : Option PyObj :=
  let cs := s.data
  if cs ≠ [] && cs.all Char.isDigit then
    some (PyObj.PInt (natOfDigits cs))
  else if listStarts ("\"\"\"".data) cs && listStarts ("\"\"\"".data) cs.reverse &&
      cs.length ≥ 6 &&
      ((cs.drop 3).take (cs.length - 6)).all
        (fun c => c ≠ '"' && c ≠ Char.ofNat 92) then
    some (PyObj.PStr (String.mk ((cs.drop 3).take (cs.length - 6))))
  else none

/-- Embeds `_parse_llm_compiler_action_args`: strip, remove one layer of matching
surrounding quotes, defensively triple-quote multiline content, return the
empty tuple for an empty string, and otherwise literal-evaluate with a
fallback to the whole string as a single argument. -/
def parse_llm_compiler_action_args (args : String) : List PyObj :=
  let d1 := (pyStrip args).data
  let d2 :=
    if (d1.head? = some '"' && d1.getLast? = some '"') ||
        (d1.head? = some squote && d1.getLast? = some squote) then
      (d1.drop 1).dropLast
    else d1
  let d3 :=
    if containsSub ['\n'] d2 then ("\"\"\"".data) ++ d2 ++ ("\"\"\"".data) else d2
  if d3 = [] then []
  else
    match pyLiteralEval (String.mk d3) with
    | some v => [v]
    | none => [PyObj.PStr (String.mk d3)]

/-- Embeds `_find_tool`: look up an operation by name in the registry (modelled by
its list of names, the only attribute the parser consults), raising
`OutputParserException` when absent. -/
def find_tool (tool_name : String) (tools : List String) : Except PyErr String :=
  match tools.find? (fun t => t = tool_name) with
  | some t => .ok t
  | none => .error (.outputParserError ("Tool " ++ tool_name ++ " not found."))

/-- One compiled task.  The function-valued fields of the source `Task`
(`tool`, `stringify_rule`) are not representable in a first-order model and
are not consulted by any claim; all other fields are kept. -/
structure PTask where
  idx : Nat
  name : String
  args : List PyObj
  dependencies : List Nat
  thought : String
  is_fuse : Bool
  deriving DecidableEq, Repr

/-- Embeds `instantiate_task`: infer dependencies from the raw argument string,
parse the arguments, and resolve the operation (the terminal sentinel
"fuse" resolves to a no-op without consulting the registry). -/
def instantiate_task (tools : List String) (idx : Nat) (tool_name : String)
    (args : String) (thought : String) : Except PyErr PTask :=
  let dependencies := get_dependencies_from_graph idx tool_name args
  let pargs := parse_llm_compiler_action_args args
  if tool_name = "fuse" then
    .ok ⟨idx, tool_name, pargs, dependencies, thought, true⟩
  else
    match find_tool tool_name tools with
    | .error e => .error e
    | .ok _ =>
      .ok ⟨idx, tool_name, pargs, dependencies, thought, false⟩

/-- Insertion-ordered graph dict `graph_dict[idx] = task` with
overwrite-on-assignment. -/
def dictInsert (g : List (Nat × PTask)) (k : Nat) (t : PTask) : List (Nat × PTask) :=
  match g with
  | [] => [(k, t)]
  | (k', t') :: rest => if k' = k then (k, t) :: rest else (k', t') :: dictInsert rest k t

/-- The record loop of `GatewayPlanParser.parse`: instantiate each record in
order, add it to the graph, and stop as soon as a terminal task is produced;
an instantiation failure aborts the whole parse. -/
def parseFold (tools : List String) (g : List (Nat × PTask)) :
    List PRec → Except PyErr (List (Nat × PTask))
  | [] => .ok g
  | r :: rest =>
    match instantiate_task tools r.idx r.name r.args r.thought with
    | .error e => .error e
    | .ok t =>
      let g1 := dictInsert g r.idx t
      if t.is_fuse then .ok g1 else parseFold tools g1 rest

/-- Embeds `GatewayPlanParser.parse`, downstream of the tokenizer regex: the input
is the list of captured records. -/
def GatewayPlanParser.parse (tools : List String) (ms : List PRec) :
    Except PyErr (List (Nat × PTask)) :=
  parseFold tools [] (update_task_list_with_summarization ms)

/-! ## The orchestrator loop (`Agent.acall` / `Agent.fuse`) -/

/-- Modelled from the spec: `task_processor.py` is not under `src/`.  A task
of one iteration's executed graph, as consumed by the orchestrator loop
after the scheduler has run: the terminal marker, and its two rendered
texts.  `taoFull` models
`get_thought_action_observation(include_action=True, include_thought=True)`
(the scratchpad rendering); `taoAction` models
`get_thought_action_observation(include_action=True, include_action_idx=True)`
(the replan-context rendering).  The list is in graph (id) order, the
iteration order of the Python dict. -/
structure MTask where
  is_fuse : Bool
  taoFull : String
  taoAction : String
  deriving DecidableEq, Repr

/-- Modelled from the spec: `planner.py` and the scheduler are not under
`src/`; they are external collaborators invoked once per iteration.  A
deterministic run of the loop is modelled by two oracles: the executed task
graph produced by plan-then-schedule at iteration `i`, and the raw fuser
LLM reply at iteration `i`.  (The planner inputs — the user request and the
accumulated replan context — and the fuser prompt determine these replies
in the real system; the oracles absorb that dependency.) -/
structure OrchModel where
  max_retries : Nat
  plan : Nat → List MTask
  fuserReply : Nat → String

/-- Models Python separator join (`"\n".join` and friends). -/
def sepJoin (sep : String) : List String → String
  | [] => ""
  | x :: rest => rest.foldl (fun a b => a ++ sep ++ b) x

/-- Python f-string rendering of an optional string (`None` renders as
the four-letter word None). -/
def pyShowOpt (o : Option String) : String := o.getD "None"

/-- Embeds `Agent._generate_context_for_replanner`. -/
def generate_context_for_replanner (tasks : List MTask) (fusion_thought : String) :
    String :=
  let prev := sepJoin "\n"
    ((tasks.filter (fun t => !t.is_fuse)).map (fun t => t.taoAction))
  sepJoin "\n\n" [prev, "Thought: " ++ fusion_thought]

/-- Embeds `Agent._format_contexts`. -/
def format_contexts (contexts : List String) : String :=
  (contexts.foldl (fun acc c => acc ++ "Previous Plan:\n\n" ++ c ++ "\n\n") "") ++
    "Current Plan:\n\n"

/-- Embeds `Agent.fuse`, minus the prompt assembly (absorbed by the reply oracle):
parse the fuser reply, and on the final iteration force the replan flag to
false. -/
def fuseStep (raw : String) (is_final : Bool) :
    Except PyErr (Option String × String × Bool) :=
  match parse_fusion_output raw with
  | .error e => .error e
  | .ok (thought, answer, is_replan) =>
    .ok (thought, answer, if is_final then false else is_replan)

/-- What one loop iteration exposes to the outside: the scratchpad passed
to the fuser and the replan flag that came back (after the final-iteration
forcing). -/
structure IterLog where
  scratchpadToFuser : String
  isReplan : Bool
  deriving DecidableEq, Repr

/-- The observable outcome of `acall`: the returned answer (or the raised
exception), the number of planner invocations, and the per-iteration log. -/
structure AcallResult where
  result : Except PyErr String
  plannerCalls : Nat
  iterLog : List IterLog
  deriving DecidableEq, Repr

/-- One iteration's scratchpad update:
`agent_scratchpad += "\n\n"; agent_scratchpad += "".join(...)` over the
non-terminal tasks' renderings, followed by `strip()`. -/
def stepScratch (M : OrchModel) (i : Nat) (scratch : String) : String :=
  pyStrip (scratch ++ "\n\n" ++
    pyJoin (((M.plan i).filter (fun t => !t.is_fuse)).map (fun t => t.taoFull)))

/-- The `for i in range(self.max_retries)` loop of `Agent.acall`, with the
remaining-iteration count `rem` (`rem = max_retries - i`), the accumulated
scratchpad, context list, planner-invocation count and log made explicit.
Fuel 0 is the loop running to exhaustion without a `break`, after which
Python's `return {self.output_key: answer}` raises `NameError` because
`answer` was never bound (reachable only for `max_retries = 0`). -/
def acallAux (M : OrchModel) :
    Nat → Nat → String → List String → Nat → List IterLog → AcallResult
  | 0, _, _, _, calls, log => ⟨.error .nameErrorAnswer, calls, log⟩
  | rem + 1, i, scratch, contexts, calls, log =>
    let calls1 := calls + 1
    let scratch1 := stepScratch M i scratch
    let is_final := i == M.max_retries - 1
    match fuseStep (M.fuserReply i) is_final with
    | .error e => ⟨.error e, calls1, log⟩
    | .ok (thought, answer, is_replan) =>
      let log1 := log ++ [⟨scratch1, is_replan⟩]
      if is_replan then
        let context := generate_context_for_replanner (M.plan i) (pyShowOpt thought)
        acallAux M rem (i + 1) scratch1 (contexts ++ [context ]) calls1 log1
      else
        ⟨.ok answer, calls1, log1⟩

/-- Embeds `Agent.acall` (non-streaming mode): run the loop from iteration 0 with
an empty scratchpad, context list and log. -/
def acall (M : OrchModel) : AcallResult :=
  acallAux M M.max_retries 0 "" [] 0 []

/-! ## Derived specification-side definitions used by the theorems -/

/-- The parenthesis-depth delta contributed by one character. -/
def depthDelta (c : Char) : Int :=
  if c = '(' then 1 else if c = ')' then -1 else 0

/-- Nesting depth after reading a list of characters, starting just inside
one open parenthesis (depth 1), as the spec describes the payload scan. -/
def depthOf (cs : List Char) : Int := 1 + (cs.map depthDelta).sum

/-- The per-iteration scratchpad fragment: the concatenated
thought-action-observation renderings of the iteration's non-terminal
tasks, in graph order. -/
def iterEntries (M : OrchModel) (i : Nat) : String :=
  pyJoin (((M.plan i).filter (fun t => !t.is_fuse)).map (fun t => t.taoFull))

/-- The accumulated scratchpad at entry to iteration `i` (empty before
iteration 0, then the strip-fold of the fragments of all previous
iterations). -/
def scratchStart (M : OrchModel) : Nat → String
  | 0 => ""
  | i + 1 => pyStrip (scratchStart M i ++ "\n\n" ++ iterEntries M i)

/-- The scratchpad handed to the fuser at iteration `i`: the accumulation
over iterations `0..i`. -/
def scratchAcc (M : OrchModel) (i : Nat) : String := scratchStart M (i + 1)

/-- Accumulator-free restatement of the renumbering fold (records only,
without the remap table), used to reason about the shape of
`_initialize_task_list`'s output. -/
def renumSpec (n : Nat) : List PRec → Nat → Nat → List PRec
  | [], _, _ => []
  | r :: rest, i, c =>
    if summTrigger n r i then
      ⟨r.thought, c, r.name, r.args⟩ :: create_summarization_step r.args c ::
        renumSpec n rest (i + 1) (c + 2)
    else
      ⟨r.thought, c, r.name, r.args⟩ :: renumSpec n rest (i + 1) (c + 1)

/-- Number of records of a suffix (enumerated from `i`) that trigger a
synthetic-step insertion. -/
def trigCount (n : Nat) : List PRec → Nat → Nat
  | [], _ => 0
  | r :: rest, i =>
    (if summTrigger n r i then 1 else 0) + trigCount n rest (i + 1)

/-- The characters a failed or completed match opening emits: `$` or
`$` followed by an opening brace. -/
def refOpen (braced : Bool) : List Char :=
  if braced then ['$', lbrace] else ['$']

/-- The reference rewriting described by the spec: rewrite every
`ID_PATTERN` match — both the `$N` and the brace-delimited form — to the
corresponding new id from the remap table, preserving the matched brace
form.  Defined from the spec's words ("scan every argument string for
placeholder patterns referencing an original id and rewrite them to the
corresponding new id"), for comparison with the source's `subDollarAux`. -/
def subBothAux (mp : List (Nat × Nat)) : List Char → Option (Bool × List Char) → List Char
  | [], none => []
  | [], some (braced, ds) =>
    refOpen braced ++ (if ds = [] then [] else dollarRepl mp ds)
  | c :: rest, none =>
    if c = '$' then subBothAux mp rest (some (false, []))
    else c :: subBothAux mp rest none
  | c :: rest, some (braced, ds) =>
    if c.isDigit then subBothAux mp rest (some (braced, ds ++ [c]))
    else if braced = false ∧ ds = [] ∧ c = lbrace then
      subBothAux mp rest (some (true, []))
    else if ds = [] then
      refOpen braced ++
        (if c = '$' then subBothAux mp rest (some (false, []))
         else c :: subBothAux mp rest none)
    else if c = rbrace then
      refOpen braced ++ dollarRepl mp ds ++ [rbrace] ++ subBothAux mp rest none
    else
      refOpen braced ++ dollarRepl mp ds ++
        (if c = '$' then subBothAux mp rest (some (false, []))
         else c :: subBothAux mp rest none)

/-- Does the list start with an opening brace followed by a digit?  (The
shape that, right after a `$`, distinguishes the two `ID_PATTERN` forms.) -/
def headBraceDigit : List Char → Bool
  | c2 :: c3 :: _ => c2 = lbrace && c3.isDigit
  | _ => false

/-- Does the text contain a brace-delimited id reference, i.e. `$` followed
by an opening brace followed by a digit? -/
def hasBraceRef : List Char → Bool
  | [] => false
  | c :: rest =>
    (if c = '$' then headBraceDigit rest else false) || hasBraceRef rest

/-- Does the text NOT start with a digit?  (State invariant for an open
brace-delimited match attempt.) -/
def headNotDigit : List Char → Prop
  | d :: _ => d.isDigit = false
  | [] => True

/-! ## Theorems -/

example : extract_answer "Thought: done\n\nAction: Finish(42)" = some "42" := by
  decide

example : extract_answer "hello" =
    some "Replan required. Consider rephrasing your question." := by decide

example : extract_answer " Replanning now" = none := by decide

example : extract_answer "Action: Finish(x" = none := by decide

/-- Claim C1 (code-bug evidence).  The claim states that a fuser reply without
"Action: Finish(" yields the clarification string with the replan flag set
when the reply contains "Replan", and an undefined/empty answer with replan
false otherwise.  The code compares `raw_answer.find("Replan")` with `1`
instead of `-1`: the reply "hello" (containing neither "Finish(" nor
"Replan") still gets the clarification string and a true replan flag, and
the reply " Replan needed" (with "Replan" at index 1) makes
`_parse_fusion_output` raise instead of setting the flag. -/
theorem c1_extract_answer_divergence :
    extract_answer "hello" =
      some "Replan required. Consider rephrasing your question." ∧
    parse_fusion_output "hello" =
      .ok (none, "Replan required. Consider rephrasing your question.", true) ∧
    parse_fusion_output " Replan needed" = .error PyErr.typeErrorNoneIter := by
  decide

/-- Claim C5 (code-bug evidence).  On the plan
`1. cortexsearch("q")  2. tool2($1)  3. fuse()` the parser inserts a
summarize step after the search step, but the reference-rewriting pass then
remaps the `$1` inside the generated prompt (keyed by the search step's
original id) to the summarize step's own new id `2`: in the final graph the
summarize task's single argument references the summarize task itself, not
the search step, and its dependency set is empty, so it does not consume
the search step's output. -/
theorem c5_summarize_self_reference :
    GatewayPlanParser.parse ["cortexsearch", "tool2", "summarize"]
      [⟨"", 1, "cortexsearch", "\"q\""⟩, ⟨"", 2, "tool2", "$1"⟩,
       ⟨"", 3, "fuse", ""⟩] =
    .ok [(1, ⟨1, "cortexsearch", [.PStr "q"], [], "", false⟩),
         (2, ⟨2, "summarize",
              [.PStr "Concisely give me \"q\" ONLY using the following context: $2. DO NOT include any other rationale."],
              [], "I need to concisely summarize the cortex search output", false⟩),
         (3, ⟨3, "tool2", [.PStr "$2"], [2], "", false⟩),
         (4, ⟨4, "fuse", [], [1, 2, 3], "", true⟩)] ∧
    containsSub ("$2".data)
      ("Concisely give me \"q\" ONLY using the following context: $2. DO NOT include any other rationale.".data) = true ∧
    containsSub ("$1".data)
      ("Concisely give me \"q\" ONLY using the following context: $2. DO NOT include any other rationale.".data) = false := by
  decide

/-- If the running count never returns to zero along the input, the
parenthesis-counting loop runs off the end and reports no closing index. -/
theorem findClose_eq_none :
    ∀ (cs : List Char) (count i : Nat), 1 ≤ count →
    (∀ k, k ≤ cs.length → (count : Int) + ((cs.take k).map depthDelta).sum ≠ 0) →
    findClose cs count i = none := by
  intro cs
  induction cs with
  | nil => intro count i _ _; rfl
  | cons c rest ih =>
    intro count i h1 h2
    by_cases hc : c = '('
    · rw [findClose, if_pos hc]
      apply ih (count + 1) (i + 1) (by omega)
      intro k hk
      have hh := h2 (k + 1) (by simpa using hk)
      rw [List.take_succ_cons, List.map_cons, List.sum_cons] at hh
      simp only [depthDelta, if_pos hc] at hh
      push_cast at hh ⊢
      omega
    · by_cases hc2 : c = ')'
      · rw [findClose, if_neg hc, if_pos hc2]
        by_cases hone : count = 1
        · exfalso
          have hh := h2 1 (by simp)
          rw [List.take_succ_cons, List.take_zero, List.map_cons, List.map_nil,
            List.sum_cons, List.sum_nil] at hh
          simp only [depthDelta, if_neg hc, if_pos hc2] at hh
          omega
        · rw [if_neg hone]
          have hzero : count ≠ 0 := by omega
          apply ih (count - 1) (i + 1) (by omega)
          intro k hk
          have hh := h2 (k + 1) (by simpa using hk)
          rw [List.take_succ_cons, List.map_cons, List.sum_cons] at hh
          simp only [depthDelta, if_neg hc, if_pos hc2] at hh
          omega
      · rw [findClose, if_neg hc, if_neg hc2]
        apply ih count (i + 1) h1
        intro k hk
        have hh := h2 (k + 1) (by simpa using hk)
        rw [List.take_succ_cons, List.map_cons, List.sum_cons] at hh
        simp only [depthDelta, if_neg hc, if_neg hc2] at hh
        omega

/-- Claim C10 (confirmed).  For every fuser reply containing
"Action: Finish(" after which the parenthesis nesting depth never returns
to zero, `_extract_answer` returns `None`, and `_parse_fusion_output`
consequently raises (the Python membership test on `None`) instead of
returning a triple. -/
theorem c10_unclosed_finish_raises (raw : String) (s0 : Nat)
    (hfind : findSubFrom ("Action: Finish(".data) raw.data 0 = some s0)
    (hdepth : ∀ k,
      k ≤ (raw.data.drop (s0 + ("Action: Finish(".data).length)).length →
      depthOf ((raw.data.drop (s0 + ("Action: Finish(".data).length)).take k) ≠ 0) :
    extract_answer raw = none ∧
    parse_fusion_output raw = .error PyErr.typeErrorNoneIter := by
  have hclose : findClose (raw.data.drop (s0 + ("Action: Finish(".data).length)) 1
      (s0 + ("Action: Finish(".data).length) = none := by
    apply findClose_eq_none _ 1 _ (by omega)
    intro k hk
    have := hdepth k hk
    simpa [depthOf] using this
  have hext : extract_answer raw = none := by
    rw [extract_answer]
    simp only [hfind, hclose]
  refine ⟨hext, ?_⟩
  rw [parse_fusion_output]
  simp only [hext]

/-- Witness for `c10_unclosed_finish_raises` at the reply
"Action: Finish(x". -/
theorem c10_witness :
    extract_answer "Action: Finish(x" = none ∧
    parse_fusion_output "Action: Finish(x" = .error PyErr.typeErrorNoneIter :=
  c10_unclosed_finish_raises "Action: Finish(x" 0 (by decide) (by decide)

/-- Step equation: a fusion-parse failure aborts the iteration. -/
theorem acallAux_step_error (M : OrchModel) (rem i : Nat) (scratch : String)
    (ctxs : List String) (calls : Nat) (log : List IterLog) (e : PyErr)
    (hf : fuseStep (M.fuserReply i) (i == M.max_retries - 1) = .error e) :
    acallAux M (rem + 1) i scratch ctxs calls log = ⟨.error e, calls + 1, log⟩ := by
  rw [acallAux, hf]

/-- Step equation: a false replan flag ends the loop with the answer. -/
theorem acallAux_step_done (M : OrchModel) (rem i : Nat) (scratch : String)
    (ctxs : List String) (calls : Nat) (log : List IterLog)
    (th : Option String) (ans : String)
    (hf : fuseStep (M.fuserReply i) (i == M.max_retries - 1) = .ok (th, ans, false)) :
    acallAux M (rem + 1) i scratch ctxs calls log =
      ⟨.ok ans, calls + 1, log ++ [⟨stepScratch M i scratch, false⟩]⟩ := by
  rw [acallAux, hf]
  rfl

/-- Step equation: a true replan flag continues with the next iteration. -/
theorem acallAux_step_replan (M : OrchModel) (rem i : Nat) (scratch : String)
    (ctxs : List String) (calls : Nat) (log : List IterLog)
    (th : Option String) (ans : String)
    (hf : fuseStep (M.fuserReply i) (i == M.max_retries - 1) = .ok (th, ans, true)) :
    acallAux M (rem + 1) i scratch ctxs calls log =
      acallAux M rem (i + 1) (stepScratch M i scratch)
        (ctxs ++ [generate_context_for_replanner (M.plan i) (pyShowOpt th)])
        (calls + 1) (log ++ [⟨stepScratch M i scratch, true⟩]) := by
  rw [acallAux, hf]
  rfl

/-- When `fuse` reports a true replan flag, the iteration was not the final
one: `fuse` forces the flag to false when `is_final` holds. -/
theorem fuseStep_replan_not_final (raw : String) (b : Bool)
    (th : Option String) (ans : String)
    (hf : fuseStep raw b = .ok (th, ans, true)) : b = false := by
  rw [fuseStep] at hf
  cases hp : parse_fusion_output raw with
  | error e => rw [hp] at hf; exact Except.noConfusion hf
  | ok trip =>
    obtain ⟨th2, ans2, rep2⟩ := trip
    rw [hp] at hf
    have := Except.ok.inj hf
    have h3 := congrArg (fun q => q.2.2) this
    cases b with
    | false => rfl
    | true => simp at h3

/-- The loop only ever appends to the iteration log, at most one entry per
remaining iteration. -/
theorem acallAux_log_extends (M : OrchModel) :
    ∀ (rem i : Nat) (scratch : String) (ctxs : List String) (calls : Nat)
      (log : List IterLog),
    ∃ t, (acallAux M rem i scratch ctxs calls log).iterLog = log ++ t ∧
      t.length ≤ rem := by
  intro rem
  induction rem with
  | zero =>
    intro i scratch ctxs calls log
    exact ⟨[], by simp [acallAux], by simp⟩
  | succ rem ih =>
    intro i scratch ctxs calls log
    cases hf : fuseStep (M.fuserReply i) (i == M.max_retries - 1) with
    | error e =>
      rw [acallAux_step_error M rem i scratch ctxs calls log e hf]
      exact ⟨[], by simp, by simp⟩
    | ok trip =>
      obtain ⟨th, ans, rep⟩ := trip
      cases rep with
      | false =>
        rw [acallAux_step_done M rem i scratch ctxs calls log th ans hf]
        exact ⟨[⟨stepScratch M i scratch, false⟩], rfl, by simp⟩
      | true =>
        rw [acallAux_step_replan M rem i scratch ctxs calls log th ans hf]
        obtain ⟨t, ht, hlen⟩ := ih (i + 1) (stepScratch M i scratch)
          (ctxs ++ [generate_context_for_replanner (M.plan i) (pyShowOpt th)])
          (calls + 1) (log ++ [⟨stepScratch M i scratch, true⟩])
        refine ⟨⟨stepScratch M i scratch, true⟩ :: t, ?_, ?_⟩
        · rw [ht]; simp
        · simp only [List.length_cons]; omega

/-- Each iteration makes exactly one planner invocation, so the loop makes
at most one per remaining iteration. -/
theorem acallAux_calls_le (M : OrchModel) :
    ∀ (rem i : Nat) (scratch : String) (ctxs : List String) (calls : Nat)
      (log : List IterLog),
    (acallAux M rem i scratch ctxs calls log).plannerCalls ≤ calls + rem := by
  intro rem
  induction rem with
  | zero => intro i scratch ctxs calls log; simp [acallAux]
  | succ rem ih =>
    intro i scratch ctxs calls log
    cases hf : fuseStep (M.fuserReply i) (i == M.max_retries - 1) with
    | error e =>
      rw [acallAux_step_error M rem i scratch ctxs calls log e hf]
      simp
    | ok trip =>
      obtain ⟨th, ans, rep⟩ := trip
      cases rep with
      | false =>
        rw [acallAux_step_done M rem i scratch ctxs calls log th ans hf]
        simp
      | true =>
        rw [acallAux_step_replan M rem i scratch ctxs calls log th ans hf]
        calc (acallAux M rem (i + 1) (stepScratch M i scratch)
              (ctxs ++ [generate_context_for_replanner (M.plan i) (pyShowOpt th)])
              (calls + 1) (log ++ [⟨stepScratch M i scratch, true⟩])).plannerCalls
            ≤ (calls + 1) + rem := ih _ _ _ _ _
          _ = calls + (rem + 1) := by omega

/-- Characterization of the iteration log: entry `j` records the
accumulated scratchpad `scratchAcc M j`, and an entry of the last allotted
iteration (`j = max_retries - 1`) always has its replan flag forced to
false. -/
theorem acallAux_log_spec (M : OrchModel) :
    ∀ (rem i : Nat) (ctxs : List String) (calls : Nat) (log : List IterLog),
    log.length = i →
    ∀ j e, i ≤ j →
      (acallAux M rem i (scratchStart M i) ctxs calls log).iterLog[j]? = some e →
      e.scratchpadToFuser = scratchAcc M j ∧
      (j = M.max_retries - 1 → e.isReplan = false) := by
  intro rem
  induction rem with
  | zero =>
    intro i ctxs calls log hlen j e hij hsome
    have hsome2 : log[j]? = some e := hsome
    have hle : log.length ≤ j := by omega
    rw [List.getElem?_eq_none hle] at hsome2
    exact Option.noConfusion hsome2
  | succ rem ih =>
    intro i ctxs calls log hlen j e hij hsome
    have hstep : stepScratch M i (scratchStart M i) = scratchStart M (i + 1) := rfl
    have hacc : scratchAcc M i = scratchStart M (i + 1) := rfl
    cases hf : fuseStep (M.fuserReply i) (i == M.max_retries - 1) with
    | error e2 =>
      exfalso
      rw [acallAux_step_error M rem i _ ctxs calls log e2 hf] at hsome
      have hsome2 : log[j]? = some e := hsome
      have hle : log.length ≤ j := by omega
      rw [List.getElem?_eq_none hle] at hsome2
      exact Option.noConfusion hsome2
    | ok trip =>
      obtain ⟨th, ans, rep⟩ := trip
      cases rep with
      | false =>
        rw [acallAux_step_done M rem i _ ctxs calls log th ans hf] at hsome
        have hsome2 : (log ++ [(⟨stepScratch M i (scratchStart M i), false⟩ :
            IterLog)])[j]? = some e := hsome
        have hjlt : j < log.length + 1 := by
          by_contra hge
          have hle2 : (log ++ [(⟨stepScratch M i (scratchStart M i), false⟩ :
              IterLog)]).length ≤ j := by
            simp only [List.length_append, List.length_cons, List.length_nil]
            omega
          rw [List.getElem?_eq_none hle2] at hsome2
          exact Option.noConfusion hsome2
        have hjeq : j = i := by omega
        subst hjeq
        have hval : (log ++ [(⟨stepScratch M j (scratchStart M j), false⟩ :
            IterLog)])[log.length]? =
            some ⟨stepScratch M j (scratchStart M j), false⟩ :=
          List.getElem?_concat_length _ _
        rw [hlen] at hval
        rw [hval] at hsome2
        have he : e = ⟨stepScratch M j (scratchStart M j), false⟩ :=
          (Option.some.inj hsome2).symm
        subst he
        exact ⟨rfl, fun _ => rfl⟩
      | true =>
        rw [acallAux_step_replan M rem i _ ctxs calls log th ans hf] at hsome
        have hne : i ≠ M.max_retries - 1 := by
          have hb := fuseStep_replan_not_final (M.fuserReply i)
            (i == M.max_retries - 1) th ans hf
          intro habs
          rw [habs] at hb
          simp at hb
        rw [hstep] at hsome
        rcases Nat.lt_or_ge j (i + 1) with hji | hji
        · have hjeq : j = i := by omega
          subst hjeq
          obtain ⟨t, ht, _⟩ := acallAux_log_extends M rem (j + 1)
            (scratchStart M (j + 1))
            (ctxs ++ [generate_context_for_replanner (M.plan j) (pyShowOpt th)])
            (calls + 1) (log ++ [⟨scratchStart M (j + 1), true⟩])
          rw [ht] at hsome
          have hn2 : j < (log ++ [(⟨scratchStart M (j + 1), true⟩ :
              IterLog)]).length := by
            simp only [List.length_append, List.length_cons, List.length_nil]
            omega
          rw [List.getElem?_append_left hn2] at hsome
          have hval : (log ++ [(⟨scratchStart M (j + 1), true⟩ :
              IterLog)])[log.length]? = some ⟨scratchStart M (j + 1), true⟩ :=
            List.getElem?_concat_length _ _
          rw [hlen] at hval
          rw [hval] at hsome
          have he : e = ⟨scratchStart M (j + 1), true⟩ :=
            (Option.some.inj hsome).symm
          subst he
          exact ⟨rfl, fun habs => absurd habs hne⟩
        · exact ih (i + 1)
            (ctxs ++ [generate_context_for_replanner (M.plan i) (pyShowOpt th)])
            (calls + 1) (log ++ [⟨scratchStart M (i + 1), true⟩])
            (by simp [hlen]) j e hji hsome

/-- Claim C2 (confirmed).  For `max_retries = R ≥ 1`, one `acall` invokes the
planner at most R times, runs at most R iterations, and any fuse outcome
recorded for the final iteration (`i = R - 1`) has its replan flag false
regardless of the fuser's reply text, so the loop terminates by iteration
`R - 1`. -/
theorem c2_replan_bound (M : OrchModel) (_hR : 1 ≤ M.max_retries) :
    (acall M).plannerCalls ≤ M.max_retries ∧
    (acall M).iterLog.length ≤ M.max_retries ∧
    (∀ e, (acall M).iterLog[M.max_retries - 1]? = some e → e.isReplan = false) := by
  refine ⟨?_, ?_, ?_⟩
  · have h := acallAux_calls_le M M.max_retries 0 "" [] 0 []
    simpa [acall] using h
  · obtain ⟨t, ht, hlen⟩ := acallAux_log_extends M M.max_retries 0 "" [] 0 []
    have h2 : (acall M).iterLog = [] ++ t := ht
    rw [h2]
    simpa using hlen
  · intro e hsome
    exact (acallAux_log_spec M M.max_retries 0 [] 0 [] rfl
      (M.max_retries - 1) e (Nat.zero_le _) hsome).2 rfl

/-- Witness for `c2_replan_bound`: a run with `max_retries = 2` whose fuser
reply always requests a replan. -/
theorem c2_witness :
    (acall ⟨2, fun _ => [], fun _ => "hello"⟩).plannerCalls ≤ 2 ∧
    (acall ⟨2, fun _ => [], fun _ => "hello"⟩).iterLog.length ≤ 2 ∧
    (⟨"", false⟩ : IterLog).isReplan = false :=
  ⟨(c2_replan_bound ⟨2, fun _ => [], fun _ => "hello"⟩ (by decide)).1,
   (c2_replan_bound ⟨2, fun _ => [], fun _ => "hello"⟩ (by decide)).2.1,
   (c2_replan_bound ⟨2, fun _ => [], fun _ => "hello"⟩ (by decide)).2.2
     ⟨"", false⟩ (by decide)⟩

/-- Claim C3 (counterexample).  A two-iteration run: iteration 0 executes a
task rendered "A", iteration 1 a task rendered "B", and the fuser requests
a replan after iteration 0.  The scratchpad passed to the fuser at
iteration 1 is "A\n\nB" — it still contains iteration 0's entry — whereas
the claim says it would be the concatenation for iteration 1's graph alone
("B"). -/
theorem c3_counterexample :
    (acall ⟨2, fun i => if i = 0 then [⟨false, "A", "a"⟩] else [⟨false, "B", "b"⟩],
        fun _ => "hello"⟩).iterLog.map IterLog.scratchpadToFuser =
      ["A", "A\n\nB"] ∧
    ("A\n\nB" : String) ≠ "B" := by
  decide

/-- Claim C3 (amended).  The scratchpad passed to the fuser at iteration `j`
is the accumulated strip-fold of the entries of all iterations `0..j` (each
iteration contributing its non-terminal tasks' renderings in graph order):
entries from earlier iterations' graphs are carried over, because
`agent_scratchpad` is initialized once before the loop and appended to each
iteration. -/
theorem c3_scratchpad_accumulation (M : OrchModel) (j : Nat) (e : IterLog)
    (hsome : (acall M).iterLog[j]? = some e) :
    e.scratchpadToFuser = scratchAcc M j :=
  (acallAux_log_spec M M.max_retries 0 [] 0 [] rfl j e (Nat.zero_le _) hsome).1

/-- Witness for `c3_scratchpad_accumulation` at a concrete two-iteration
run. -/
theorem c3_witness :
    (acall ⟨2, fun i => if i = 0 then [⟨false, "A", "a"⟩] else [⟨false, "B", "b"⟩],
        fun _ => "hello"⟩).iterLog[1]? = some ⟨"A\n\nB", false⟩ ∧
    (⟨"A\n\nB", false⟩ : IterLog).scratchpadToFuser =
      scratchAcc ⟨2, fun i => if i = 0 then [⟨false, "A", "a"⟩]
        else [⟨false, "B", "b"⟩], fun _ => "hello"⟩ 1 :=
  ⟨by decide,
   c3_scratchpad_accumulation
     ⟨2, fun i => if i = 0 then [⟨false, "A", "a"⟩] else [⟨false, "B", "b"⟩],
      fun _ => "hello"⟩ 1 ⟨"A\n\nB", false⟩ (by decide)⟩

/-! ## Structural lemmas about the plan parser -/

/-- Anything in the graph dict after an insertion is the new pair or was
already present. -/
theorem dictInsert_mem {g : List (Nat × PTask)} {k : Nat} {t : PTask} {p : Nat × PTask}
    (hp : p ∈ dictInsert g k t) : p = (k, t) ∨ p ∈ g := by
  induction g with
  | nil => simp [dictInsert] at hp; exact Or.inl hp
  | cons q rest ih =>
    rw [dictInsert] at hp
    by_cases hk : q.1 = k
    · rw [if_pos hk] at hp
      rcases List.mem_cons.mp hp with h | h
      · exact Or.inl h
      · exact Or.inr (List.mem_cons_of_mem _ h)
    · rw [if_neg hk] at hp
      rcases List.mem_cons.mp hp with h | h
      · exact Or.inr (h ▸ List.mem_cons_self _ _)
      · rcases ih h with h2 | h2
        · exact Or.inl h2
        · exact Or.inr (List.mem_cons_of_mem _ h2)

/-- Inserting a key absent from the dict appends the pair. -/
theorem dictInsert_fresh {g : List (Nat × PTask)} {k : Nat} {t : PTask}
    (hfresh : ∀ p ∈ g, p.1 ≠ k) : dictInsert g k t = g ++ [(k, t)] := by
  induction g with
  | nil => rfl
  | cons q rest ih =>
    rw [dictInsert]
    rw [if_neg (hfresh q (List.mem_cons_self _ _))]
    rw [ih (fun p hp => hfresh p (List.mem_cons_of_mem _ hp))]
    rfl

/-- A successfully instantiated task carries exactly the fields the source
computes: the given id and name, the dependency set from the raw argument
string, and the terminal marker iff the name is the sentinel. -/
theorem instantiate_task_ok {tools : List String} {idx : Nat} {name args th : String}
    {t : PTask} (h : instantiate_task tools idx name args th = .ok t) :
    t.idx = idx ∧ t.name = name ∧
    t.dependencies = get_dependencies_from_graph idx name args ∧
    (t.is_fuse = true ↔ name = "fuse") := by
  rw [instantiate_task] at h
  by_cases hf : name = "fuse"
  · rw [if_pos hf] at h
    have := Except.ok.inj h
    subst this
    simp [hf]
  · rw [if_neg hf] at h
    cases hft : find_tool name tools with
    | error e => rw [hft] at h; exact Except.noConfusion h
    | ok t2 =>
      rw [hft] at h
      have := Except.ok.inj h
      subst this
      simp [hf]

/-- When the name is not the sentinel and is absent from the registry,
instantiation raises the `ToolNotFound` error. -/
theorem instantiate_task_notfound {tools : List String} {idx : Nat}
    {name args th : String} (hf : name ≠ "fuse") (hmem : name ∉ tools) :
    instantiate_task tools idx name args th =
      .error (.outputParserError ("Tool " ++ name ++ " not found.")) := by
  rw [instantiate_task, if_neg hf]
  have hfind : tools.find? (fun t => t = name) = none := by
    rw [List.find?_eq_none]
    intro x hx
    simp only [decide_eq_true_eq]
    intro habs
    exact hmem (habs ▸ hx)
  rw [find_tool, hfind]

/-- When the name is in the registry, instantiation succeeds. -/
theorem instantiate_task_found {tools : List String} {idx : Nat}
    {name args th : String} (hmem : name ∈ tools) :
    ∃ t, instantiate_task tools idx name args th = .ok t := by
  rw [instantiate_task]
  by_cases hf : name = "fuse"
  · rw [if_pos hf]; exact ⟨_, rfl⟩
  · rw [if_neg hf]
    cases hft : tools.find? (fun t => t = name) with
    | none =>
      exfalso
      rw [List.find?_eq_none] at hft
      exact hft name hmem (by simp)
    | some t2 =>
      rw [find_tool, hft]
      exact ⟨_, rfl⟩

/-- Invariant transport through the record loop: any property established
by successful instantiation and preserved by dict insertion holds for every
entry of the resulting graph. -/
theorem parseFold_preserve (tools : List String) (P : Nat × PTask → Prop)
    (hinst : ∀ idx name args th t,
      instantiate_task tools idx name args th = .ok t → P (idx, t)) :
    ∀ (recs : List PRec) (g : List (Nat × PTask)),
    (∀ p ∈ g, P p) →
    ∀ gout, parseFold tools g recs = .ok gout → ∀ p ∈ gout, P p := by
  intro recs
  induction recs with
  | nil =>
    intro g hg gout hok p hp
    rw [parseFold] at hok
    exact hg p ((Except.ok.inj hok).symm ▸ hp)
  | cons r rest ih =>
    intro g hg gout hok p hp
    rw [parseFold] at hok
    cases hi : instantiate_task tools r.idx r.name r.args r.thought with
    | error e => rw [hi] at hok; exact Except.noConfusion hok
    | ok t =>
      rw [hi] at hok
      replace hok : (if t.is_fuse = true then Except.ok (dictInsert g r.idx t)
          else parseFold tools (dictInsert g r.idx t) rest) = Except.ok gout := hok
      have hg1 : ∀ q ∈ dictInsert g r.idx t, P q := by
        intro q hq
        rcases dictInsert_mem hq with h | h
        · exact h ▸ hinst r.idx r.name r.args r.thought t hi
        · exact hg q h
      by_cases hfuse : t.is_fuse
      · rw [if_pos hfuse] at hok
        exact hg1 p ((Except.ok.inj hok).symm ▸ hp)
      · rw [if_neg hfuse] at hok
        exact ih (dictInsert g r.idx t) hg1 gout hok p hp

/-- Claim C8 (confirmed).  Every task of a successfully parsed graph has a
dependency set inside `{1, …, id-1}` (each dependency positive and strictly
below the task's own id, so the graph is acyclic by construction), and the
terminal "fuse" task depends on exactly all prior ids. -/
theorem c8_acyclic_dependencies (tools : List String) (ms : List PRec)
    (g : List (Nat × PTask)) (hok : GatewayPlanParser.parse tools ms = .ok g) :
    ∀ p ∈ g, p.2.idx = p.1 ∧
      (∀ d ∈ p.2.dependencies, 1 ≤ d ∧ d < p.1) ∧
      (p.2.name = "fuse" → p.2.dependencies = List.range' 1 (p.1 - 1)) := by
  rw [GatewayPlanParser.parse] at hok
  refine parseFold_preserve tools
    (fun p => p.2.idx = p.1 ∧ (∀ d ∈ p.2.dependencies, 1 ≤ d ∧ d < p.1) ∧
      (p.2.name = "fuse" → p.2.dependencies = List.range' 1 (p.1 - 1)))
    ?_ (update_task_list_with_summarization ms) []
    (by intro p hp; exact absurd hp (List.not_mem_nil p)) g hok
  intro idx name args th t hi
  obtain ⟨hidx, hname, hdeps, _⟩ := instantiate_task_ok hi
  refine ⟨hidx, ?_, ?_⟩
  · intro d hd
    rw [hdeps, get_dependencies_from_graph] at hd
    by_cases hf : name = "fuse"
    · rw [if_pos hf] at hd
      obtain ⟨i2, hi2, he⟩ := List.mem_range'.mp hd
      omega
    · rw [if_neg hf] at hd
      have hd2 := List.mem_of_mem_filter hd
      obtain ⟨i2, hi2, he⟩ := List.mem_range'.mp hd2
      omega
  · intro hf
    rw [hname] at hf
    rw [hdeps, get_dependencies_from_graph, if_pos hf]

/-- Witness for `c8_acyclic_dependencies` on the concrete plan
`1. toolx(hi)  2. fuse()`. -/
theorem c8_witness :
    ((2 : Nat), (⟨2, "fuse", [], [1], "", true⟩ : PTask)).2.idx =
      ((2 : Nat), (⟨2, "fuse", [], [1], "", true⟩ : PTask)).1 ∧
    ((2 : Nat), (⟨2, "fuse", [], [1], "", true⟩ : PTask)).2.dependencies =
      List.range' 1 (((2 : Nat), (⟨2, "fuse", [], [1], "", true⟩ : PTask)).1 - 1) :=
  ⟨(c8_acyclic_dependencies ["toolx"]
      [⟨"", 1, "toolx", "hi"⟩, ⟨"", 2, "fuse", ""⟩]
      [(1, ⟨1, "toolx", [PyObj.PStr "hi"], [], "", false⟩),
       (2, ⟨2, "fuse", [], [1], "", true⟩)] (by decide)
      (2, ⟨2, "fuse", [], [1], "", true⟩) (by decide)).1,
   (c8_acyclic_dependencies ["toolx"]
      [⟨"", 1, "toolx", "hi"⟩, ⟨"", 2, "fuse", ""⟩]
      [(1, ⟨1, "toolx", [PyObj.PStr "hi"], [], "", false⟩),
       (2, ⟨2, "fuse", [], [1], "", true⟩)] (by decide)
      (2, ⟨2, "fuse", [], [1], "", true⟩) (by decide)).2.2 rfl⟩

/-- If every record before position `k` resolves (and is not the terminal
sentinel) and the record at `k` names an unregistered non-sentinel
operation, the whole record loop aborts with that record's `ToolNotFound`
error. -/
theorem parseFold_error_at (tools : List String) :
    ∀ (recs : List PRec) (k : Nat) (g : List (Nat × PTask)) (hk : k < recs.length),
    (∀ j (hj : j < k), (recs.get ⟨j, by omega⟩).name ≠ "fuse" ∧
      (recs.get ⟨j, by omega⟩).name ∈ tools) →
    (recs.get ⟨k, hk⟩).name ∉ tools →
    (recs.get ⟨k, hk⟩).name ≠ "fuse" →
    parseFold tools g recs =
      .error (.outputParserError
        ("Tool " ++ (recs.get ⟨k, hk⟩).name ++ " not found.")) := by
  intro recs
  induction recs with
  | nil => intro k g hk; exact absurd hk (by simp)
  | cons r rest ih =>
    intro k g hk hbefore hnot hnf
    cases k with
    | zero =>
      have hget0 : ((r :: rest).get ⟨0, hk⟩) = r := rfl
      rw [hget0] at hnot hnf ⊢
      rw [parseFold]
      rw [instantiate_task_notfound hnf hnot]
    | succ k2 =>
      have hr := hbefore 0 (Nat.succ_pos k2)
      have hget0 : ∀ h0, ((r :: rest).get ⟨0, h0⟩) = r := fun h0 => rfl
      rw [hget0] at hr
      obtain ⟨t, ht⟩ := @instantiate_task_found tools r.idx r.name r.args
        r.thought hr.2
      rw [parseFold, ht]
      show (if t.is_fuse = true then Except.ok (dictInsert g r.idx t)
        else parseFold tools (dictInsert g r.idx t) rest) = _
      have hnofuse : t.is_fuse ≠ true := by
        intro habs
        exact hr.1 ((instantiate_task_ok ht).2.2.2.mp habs)
      rw [if_neg hnofuse]
      have hgetS : ((r :: rest).get ⟨k2 + 1, hk⟩) =
        (rest.get ⟨k2, Nat.lt_of_succ_lt_succ hk⟩) := rfl
      rw [hgetS] at hnot hnf ⊢
      exact ih k2 (dictInsert g r.idx t) (Nat.lt_of_succ_lt_succ hk)
        (fun j hj => hbefore (j + 1) (Nat.succ_lt_succ hj)) hnot hnf

/-- Claim C4 (amended).  A `ToolNotFound` error is fatal to the entire parse,
not just to the offending task: when a record (before any terminal record)
names an operation absent from the registry and distinct from the sentinel,
the `OutputParserException` raised by `_find_tool` propagates out of
`GatewayPlanParser.parse`, so no graph is produced — no other task of the
plan is parsed or executed and no dependent is marked skipped. -/
theorem c4_toolnotfound_aborts (tools : List String) (ms : List PRec) (k : Nat)
    (hk : k < (update_task_list_with_summarization ms).length)
    (hbefore : ∀ j (hj : j < k),
      ((update_task_list_with_summarization ms).get ⟨j, by omega⟩).name ≠ "fuse" ∧
      ((update_task_list_with_summarization ms).get ⟨j, by omega⟩).name ∈ tools)
    (hnot : ((update_task_list_with_summarization ms).get ⟨k, hk⟩).name ∉ tools)
    (hnf : ((update_task_list_with_summarization ms).get ⟨k, hk⟩).name ≠ "fuse") :
    GatewayPlanParser.parse tools ms =
      .error (.outputParserError
        ("Tool " ++ ((update_task_list_with_summarization ms).get ⟨k, hk⟩).name ++
          " not found.")) :=
  parseFold_error_at tools (update_task_list_with_summarization ms) k [] hk
    hbefore hnot hnf

/-- Claim C4 (counterexample).  With registry
`["search", "summarize"]` and plan
`1. unknowntool(x)  2. search("y")  3. fuse()`, the parse returns the
`ToolNotFound` error and no graph at all: the independent record 2 is not
parsed or executed and record 1's dependents are not "skipped" — there are
no tasks whatsoever, contradicting "the rest of the plan is still parsed
and executed". -/
theorem c4_counterexample :
    GatewayPlanParser.parse ["search", "summarize"]
      [⟨"", 1, "unknowntool", "x"⟩, ⟨"", 2, "search", "\"y\""⟩,
       ⟨"", 3, "fuse", ""⟩] =
      .error (.outputParserError "Tool unknowntool not found.") := by
  decide

/-- Witness for `c4_toolnotfound_aborts` at a concrete plan whose first
record names an unregistered operation. -/
theorem c4_witness :
    GatewayPlanParser.parse ["summarize"]
      [⟨"", 1, "badtool", "z"⟩, ⟨"", 2, "fuse", ""⟩] =
      .error (.outputParserError
        ("Tool " ++ ((update_task_list_with_summarization
          [⟨"", 1, "badtool", "z"⟩, ⟨"", 2, "fuse", ""⟩]).get
            ⟨0, by decide⟩).name ++ " not found.")) :=
  c4_toolnotfound_aborts ["summarize"]
    [⟨"", 1, "badtool", "z"⟩, ⟨"", 2, "fuse", ""⟩] 0 (by decide)
    (fun j hj => absurd hj (Nat.not_lt_zero j)) (by decide) (by decide)

/-- The renumbering fold produces its accumulator followed by the
accumulator-free renumbered records. -/
theorem initAux_fst (n : Nat) :
    ∀ (rem : List PRec) (i c : Nat) (mp : List (Nat × Nat)) (acc : List PRec),
    (initAux n rem i c mp acc).1 = acc ++ renumSpec n rem i c := by
  intro rem
  induction rem with
  | nil => intro i c mp acc; simp [initAux, renumSpec]
  | cons r rest ih =>
    intro i c mp acc
    by_cases h : summTrigger n r i
    · rw [initAux, renumSpec, if_pos h, if_pos h, ih]
      simp
    · rw [initAux, renumSpec, if_neg h, if_neg h, ih]
      simp

/-- The ids of the renumbered record list are consecutive, starting at the
running counter. -/
theorem renumSpec_map_idx (n : Nat) :
    ∀ (rem : List PRec) (i c : Nat),
    (renumSpec n rem i c).map PRec.idx =
      List.range' c (rem.length + trigCount n rem i) := by
  intro rem
  induction rem with
  | nil => intro i c; simp [renumSpec, trigCount]
  | cons r rest ih =>
    intro i c
    by_cases h : summTrigger n r i
    · rw [renumSpec, if_pos h]
      rw [List.map_cons, List.map_cons, ih]
      have harith : (r :: rest).length + trigCount n (r :: rest) i =
          (rest.length + trigCount n rest (i + 1)) + 2 := by
        simp [trigCount, h]
        omega
      rw [harith, List.range'_succ, List.range'_succ]
      rfl
    · rw [renumSpec, if_neg h]
      rw [List.map_cons, ih]
      have harith : (r :: rest).length + trigCount n (r :: rest) i =
          (rest.length + trigCount n rest (i + 1)) + 1 := by
        simp [trigCount, h]
        omega
      rw [harith, List.range'_succ]

/-- Structure of a successfully parsed graph when the record ids are
consecutive: at most one terminal task; a terminal task is the last entry
and carries the largest id; and the graph stops at the first terminal
record. -/
theorem parseFold_struct (tools : List String) :
    ∀ (recs : List PRec) (g : List (Nat × PTask)) (c : Nat),
    recs.map PRec.idx = List.range' c recs.length →
    (∀ p ∈ g, p.1 < c) →
    (∀ p ∈ g, p.2.is_fuse = false) →
    ∀ gout, parseFold tools g recs = .ok gout →
      ((gout.filter (fun p => p.2.is_fuse)).length ≤ 1) ∧
      (∀ p ∈ gout, p.2.is_fuse = true →
        gout.getLast? = some p ∧ ∀ q ∈ gout, q.1 ≤ p.1) ∧
      gout.length ≤ g.length + (recs.findIdx (fun r => r.name = "fuse")) + 1 := by
  intro recs
  induction recs with
  | nil =>
    intro g c hmap hlt hnofuse gout hok
    rw [parseFold] at hok
    have hg : g = gout := Except.ok.inj hok
    subst hg
    refine ⟨?_, ?_, ?_⟩
    · have : g.filter (fun p => p.2.is_fuse) = [] := by
        rw [List.filter_eq_nil_iff]
        intro p hp
        simp [hnofuse p hp]
      rw [this]
      simp
    · intro p hp hfuse
      exact absurd (hnofuse p hp) (by simp [hfuse])
    · omega
  | cons r rest ih =>
    intro g c hmap hlt hnofuse gout hok
    rw [List.length_cons, List.range'_succ, List.map_cons] at hmap
    have hridx : r.idx = c := (List.cons.inj hmap).1
    have hrest : rest.map PRec.idx = List.range' (c + 1) rest.length :=
      (List.cons.inj hmap).2
    rw [parseFold] at hok
    cases hi : instantiate_task tools r.idx r.name r.args r.thought with
    | error e => rw [hi] at hok; exact Except.noConfusion hok
    | ok t =>
      rw [hi] at hok
      replace hok : (if t.is_fuse = true then Except.ok (dictInsert g r.idx t)
          else parseFold tools (dictInsert g r.idx t) rest) = Except.ok gout := hok
      have hfresh : ∀ p ∈ g, p.1 ≠ r.idx := by
        intro p hp
        have := hlt p hp
        omega
      have hins : dictInsert g r.idx t = g ++ [(r.idx, t)] := dictInsert_fresh hfresh
      by_cases hfuse : t.is_fuse
      · rw [if_pos hfuse] at hok
        have hg : g ++ [(r.idx, t)] = gout := by rw [← hins]; exact Except.ok.inj hok
        subst hg
        have hnamefuse : r.name = "fuse" := (instantiate_task_ok hi).2.2.2.mp hfuse
        refine ⟨?_, ?_, ?_⟩
        · rw [List.filter_append]
          have hgnil : g.filter (fun p => p.2.is_fuse) = [] := by
            rw [List.filter_eq_nil_iff]
            intro p hp
            simp [hnofuse p hp]
          rw [hgnil]
          simp [hfuse]
        · intro p hp hpfuse
          rcases List.mem_append.mp hp with hpg | hpe
          · exact absurd (hnofuse p hpg) (by simp [hpfuse])
          · have hpe2 : p = (r.idx, t) := List.mem_singleton.mp hpe
            subst hpe2
            refine ⟨List.getLast?_concat _, ?_⟩
            intro q hq
            rcases List.mem_append.mp hq with hqg | hqe
            · have := hlt q hqg
              omega
            · have hqe2 : q = (r.idx, t) := List.mem_singleton.mp hqe
              subst hqe2
              exact Nat.le_refl _
        · rw [List.findIdx_cons]
          have : (fun r2 : PRec => decide (r2.name = "fuse")) r = true := by
            simp [hnamefuse]
          simp only [this, cond_true]
          simp
      · rw [if_neg hfuse] at hok
        have hnamefuse : r.name ≠ "fuse" := by
          intro habs
          exact hfuse ((instantiate_task_ok hi).2.2.2.mpr habs)
        have hres := ih (dictInsert g r.idx t) (c + 1)
          hrest
          (by
            intro p hp
            rcases dictInsert_mem hp with hpe | hpg
            · rw [hpe, hridx]; omega
            · have := hlt p hpg; omega)
          (by
            intro p hp
            rcases dictInsert_mem hp with hpe | hpg
            · rw [hpe]
              simpa using hfuse
            · exact hnofuse p hpg)
          gout hok
        refine ⟨hres.1, hres.2.1, ?_⟩
        have hlen3 := hres.2.2
        rw [hins, List.length_append] at hlen3
        rw [List.findIdx_cons]
        have : (fun r2 : PRec => decide (r2.name = "fuse")) r = false := by
          simp [hnamefuse]
        simp only [this, cond_false]
        simp at hlen3 ⊢
        omega

/-- Claim C9 (confirmed).  A successfully parsed graph contains at most one
terminal ("fuse") task; when present it is the last entry added and carries
the largest id; and the graph's size is bounded by the position of the
first terminal record in the renumbered record list — records after the
terminal record contribute no tasks. -/
theorem c9_single_terminal (tools : List String) (ms : List PRec)
    (g : List (Nat × PTask)) (hok : GatewayPlanParser.parse tools ms = .ok g) :
    ((g.filter (fun p => p.2.is_fuse)).length ≤ 1) ∧
    (∀ p ∈ g, p.2.is_fuse = true →
      g.getLast? = some p ∧ ∀ q ∈ g, q.1 ≤ p.1) ∧
    g.length ≤ (update_task_list_with_summarization ms).findIdx
      (fun r => r.name = "fuse") + 1 := by
  rw [GatewayPlanParser.parse] at hok
  have h1 : (init_task_list ms).1 = renumSpec ms.length ms 0 1 := by
    rw [init_task_list, initAux_fst]
    simp
  have hmap : (update_task_list_with_summarization ms).map PRec.idx =
      List.range' 1 (ms.length + trigCount ms.length ms 0) := by
    rw [update_task_list_with_summarization]
    rw [List.map_map]
    have hcomp : (PRec.idx ∘ fun r =>
        update_task_references r (init_task_list ms).2) = PRec.idx :=
      funext (fun r => rfl)
    rw [hcomp, h1, renumSpec_map_idx]
  have hlen : (update_task_list_with_summarization ms).length =
      ms.length + trigCount ms.length ms 0 := by
    have h2 := congrArg List.length hmap
    simpa using h2
  rw [← hlen] at hmap
  have hstruct := parseFold_struct tools (update_task_list_with_summarization ms)
    [] 1 hmap (fun p hp => absurd hp (List.not_mem_nil p))
    (fun p hp => absurd hp (List.not_mem_nil p)) g hok
  exact ⟨hstruct.1, hstruct.2.1, by simpa using hstruct.2.2⟩

/-- Witness for `c9_single_terminal` on the plan
`1. tooly(a)  2. fuse()  3. tooly(after)` (the record after the terminal
record is discarded). -/
theorem c9_witness :
    (([((1 : Nat), (⟨1, "tooly", [PyObj.PStr "a"], [], "", false⟩ : PTask)),
       (2, ⟨2, "fuse", [], [1], "", true⟩)].filter
        (fun p => p.2.is_fuse)).length ≤ 1) ∧
    [((1 : Nat), (⟨1, "tooly", [PyObj.PStr "a"], [], "", false⟩ : PTask)),
       (2, ⟨2, "fuse", [], [1], "", true⟩)].getLast? =
      some (2, ⟨2, "fuse", [], [1], "", true⟩) ∧
    [((1 : Nat), (⟨1, "tooly", [PyObj.PStr "a"], [], "", false⟩ : PTask)),
       (2, ⟨2, "fuse", [], [1], "", true⟩)].length ≤
      (update_task_list_with_summarization
        [⟨"", 1, "tooly", "a"⟩, ⟨"", 2, "fuse", ""⟩,
         ⟨"", 3, "tooly", "after"⟩]).findIdx (fun r => r.name = "fuse") + 1 :=
  ⟨(c9_single_terminal ["tooly"]
      [⟨"", 1, "tooly", "a"⟩, ⟨"", 2, "fuse", ""⟩, ⟨"", 3, "tooly", "after"⟩]
      [(1, ⟨1, "tooly", [PyObj.PStr "a"], [], "", false⟩),
       (2, ⟨2, "fuse", [], [1], "", true⟩)] (by decide)).1,
   ((c9_single_terminal ["tooly"]
      [⟨"", 1, "tooly", "a"⟩, ⟨"", 2, "fuse", ""⟩, ⟨"", 3, "tooly", "after"⟩]
      [(1, ⟨1, "tooly", [PyObj.PStr "a"], [], "", false⟩),
       (2, ⟨2, "fuse", [], [1], "", true⟩)] (by decide)).2.1
      (2, ⟨2, "fuse", [], [1], "", true⟩) (by decide) rfl).1,
   (c9_single_terminal ["tooly"]
      [⟨"", 1, "tooly", "a"⟩, ⟨"", 2, "fuse", ""⟩, ⟨"", 3, "tooly", "after"⟩]
      [(1, ⟨1, "tooly", [PyObj.PStr "a"], [], "", false⟩),
       (2, ⟨2, "fuse", [], [1], "", true⟩)] (by decide)).2.2⟩

/-- Claim C6 (counterexample).  The remap table maps original id 1 to new id
2, and the argument "$\x7b1\x7d" is an `ID_PATTERN` reference to id 1
(`idMatches` captures it), yet `_update_task_references` returns the
argument unchanged: the brace-delimited form is not rewritten, because the
pass's substitution regex is `\$(\d+)`, not `ID_PATTERN`. -/
theorem c6_counterexample :
    (update_task_references ⟨"", 3, "t", "$\x7b1\x7d"⟩ [(1, 2)]).args =
      "$\x7b1\x7d" ∧
    idMatches ("$\x7b1\x7d".data) = [1] ∧
    mapGet [(1, 2)] 1 = some 2 := by
  decide

/-- Agreement of the source's `$N`-only substitution with the spec's
both-forms rewriting on texts free of brace-delimited references, together
with the auxiliary facts the induction needs about the in-match states. -/
theorem subAgree (mp : List (Nat × Nat)) :
    ∀ (N : Nat) (cs : List Char), cs.length ≤ N → hasBraceRef cs = false →
    (subDollarAux mp cs none = subBothAux mp cs none) ∧
    (∀ ds : List Char, (ds = [] → headBraceDigit cs = false) →
      subDollarAux mp cs (some ds) = subBothAux mp cs (some (false, ds))) ∧
    (headNotDigit cs →
      subBothAux mp cs (some (true, [])) =
        '$' :: lbrace :: subDollarAux mp cs none) := by
  intro N
  induction N with
  | zero =>
    intro cs hlen _
    have hcs : cs = [] := List.eq_nil_of_length_eq_zero (Nat.le_zero.mp hlen)
    subst hcs
    refine ⟨rfl, ?_, fun _ => rfl⟩
    intro ds _
    by_cases hd : ds = []
    · subst hd; rfl
    · show (if ds = [] then ['$'] else '$' :: dollarRepl mp ds) =
        refOpen false ++ (if ds = [] then [] else dollarRepl mp ds)
      rw [if_neg hd, if_neg hd]
      rfl
  | succ N ihN =>
    intro cs hlen hbr
    cases cs with
    | nil =>
      refine ⟨rfl, ?_, fun _ => rfl⟩
      intro ds _
      by_cases hd : ds = []
      · subst hd; rfl
      · show (if ds = [] then ['$'] else '$' :: dollarRepl mp ds) =
          refOpen false ++ (if ds = [] then [] else dollarRepl mp ds)
        rw [if_neg hd, if_neg hd]
        rfl
    | cons c rest =>
      have hlr : rest.length ≤ N := by simpa using hlen
      rw [hasBraceRef, Bool.or_eq_false_iff] at hbr
      obtain ⟨hbrh, hbr2⟩ := hbr
      have IH := ihN rest hlr hbr2
      refine ⟨?_, ?_, ?_⟩
      · rw [subDollarAux, subBothAux]
        by_cases hc : c = '$'
        · rw [if_pos hc, if_pos hc]
          have hhd : headBraceDigit rest = false := by rwa [if_pos hc] at hbrh
          exact IH.2.1 [] (fun _ => hhd)
        · rw [if_neg hc, if_neg hc]
          rw [IH.1]
      · intro ds hds
        rw [subDollarAux, subBothAux]
        by_cases hdig : c.isDigit
        · rw [if_pos hdig, if_pos hdig]
          exact IH.2.1 (ds ++ [c]) (fun habs => absurd habs (by simp))
        · rw [if_neg hdig, if_neg hdig]
          by_cases hA : ds = [] ∧ c = lbrace
          · obtain ⟨hds0, hcl⟩ := hA
            have hcondA : false = false ∧ ds = [] ∧ c = lbrace := ⟨rfl, hds0, hcl⟩
            rw [if_pos hcondA]
            subst hds0
            rw [if_pos rfl]
            have hcne : c ≠ '$' := by rw [hcl]; decide
            rw [if_neg hcne]
            have hcond : headNotDigit rest := by
              cases rest with
              | nil => trivial
              | cons d rest2 =>
                have hh := hds rfl
                rw [headBraceDigit] at hh
                show d.isDigit = false
                simpa [hcl] using hh
            rw [IH.2.2 hcond]
            rw [hcl]
            simp
          · have hAn : ¬ (false = false ∧ ds = [] ∧ c = lbrace) :=
              fun hh => hA ⟨hh.2.1, hh.2.2⟩
            rw [if_neg hAn]
            by_cases hd0 : ds = []
            · subst hd0
              rw [if_pos rfl, if_pos rfl]
              by_cases hc : c = '$'
              · rw [if_pos hc, if_pos hc]
                have hhd : headBraceDigit rest = false := by
                  rwa [if_pos hc] at hbrh
                rw [IH.2.1 [] (fun _ => hhd)]
                rfl
              · rw [if_neg hc, if_neg hc]
                rw [IH.1]
                rfl
            · rw [if_neg hd0, if_neg hd0]
              by_cases hcr : c = rbrace
              · rw [if_pos hcr]
                have hcne : c ≠ '$' := by rw [hcr]; decide
                rw [if_neg hcne]
                rw [IH.1]
                rw [hcr]
                simp [refOpen]
              · rw [if_neg hcr]
                by_cases hc : c = '$'
                · rw [if_pos hc, if_pos hc]
                  have hhd : headBraceDigit rest = false := by
                    rwa [if_pos hc] at hbrh
                  rw [IH.2.1 [] (fun _ => hhd)]
                  simp [refOpen]
                · rw [if_neg hc, if_neg hc]
                  rw [IH.1]
                  simp [refOpen]
      · intro hhd
        have hdig : c.isDigit = false := hhd
        rw [subBothAux]
        rw [if_neg (by simp [hdig])]
        rw [if_neg (fun hh => absurd hh.1 (by decide))]
        rw [if_pos rfl]
        rw [subDollarAux]
        by_cases hc : c = '$'
        · rw [if_pos hc, if_pos hc]
          have hhd2 : headBraceDigit rest = false := by rwa [if_pos hc] at hbrh
          rw [IH.2.1 [] (fun _ => hhd2)]
          simp [refOpen]
        · rw [if_neg hc, if_neg hc]
          rw [IH.1]
          simp [refOpen]

/-- Claim C6 (amended).  The reference-rewriting pass substitutes only the
bare `$N` placeholder form: on argument strings free of brace-delimited
references it coincides with the spec's rewriting of every `ID_PATTERN`
match through the remap table, while `$\x7bN\x7d`-form placeholders are
left unrewritten (see the counterexample). -/
theorem c6_rewrites_dollar_references (mp : List (Nat × Nat)) (r : PRec)
    (h : hasBraceRef r.args.data = false) :
    (update_task_references r mp).args =
      String.mk (subBothAux mp r.args.data none) :=
  congrArg String.mk
    ((subAgree mp r.args.data.length r.args.data (Nat.le_refl _) h).1)

/-- Witness for `c6_rewrites_dollar_references` on the argument
"go $1 now" with remap table `{1 ↦ 2}`. -/
theorem c6_witness :
    hasBraceRef ("go $1 now".data) = false ∧
    (update_task_references ⟨"", 4, "t", "go $1 now"⟩ [(1, 2)]).args =
      String.mk (subBothAux [(1, 2)] ("go $1 now".data) none) ∧
    (update_task_references ⟨"", 4, "t", "go $1 now"⟩ [(1, 2)]).args =
      "go $2 now" :=
  ⟨by decide,
   c6_rewrites_dollar_references [(1, 2)] ⟨"", 4, "t", "go $1 now"⟩ (by decide),
   by decide⟩

/-! ## Remap-table characterization (for the shift property) -/

/-- Lookup after an overwrite-or-append at the same key. -/
theorem mapGet_upsert_eq (m : List (Nat × Nat)) (k v : Nat) :
    mapGet (upsert m k v) k = some v := by
  induction m with
  | nil => simp [upsert, mapGet]
  | cons q rest ih =>
    rw [upsert]
    by_cases h : q.1 = k
    · rw [if_pos h, mapGet, if_pos rfl]
    · rw [if_neg h, mapGet, if_neg h]
      exact ih

/-- Lookup at a different key is unaffected by an upsert. -/
theorem mapGet_upsert_ne (m : List (Nat × Nat)) (k v x : Nat) (h : x ≠ k) :
    mapGet (upsert m k v) x = mapGet m x := by
  induction m with
  | nil => simp [upsert, mapGet]; omega
  | cons q rest ih =>
    rw [upsert]
    by_cases hq : q.1 = k
    · rw [if_pos hq, mapGet, if_neg (by omega), mapGet, if_neg (by omega)]
    · rw [if_neg hq, mapGet, mapGet]
      by_cases hqx : q.1 = x
      · rw [if_pos hqx, if_pos hqx]
      · rw [if_neg hqx, if_neg hqx]
        exact ih

/-- The count `trigCount` distributes over append, with the enumeration index
shifted. -/
theorem trigCount_append (n : Nat) :
    ∀ (xs ys : List PRec) (i : Nat),
    trigCount n (xs ++ ys) i = trigCount n xs i + trigCount n ys (i + xs.length) := by
  intro xs
  induction xs with
  | nil => intro ys i; simp [trigCount]
  | cons x rest ih =>
    intro ys i
    rw [List.cons_append, trigCount, trigCount, ih]
    have : i + 1 + rest.length = i + (x :: rest).length := by simp; omega
    rw [this]
    omega

/-- The fold `renumSpec` splits over append: the suffix continues with the shifted
enumeration index and counter. -/
theorem renumSpec_append (n : Nat) :
    ∀ (xs ys : List PRec) (i c : Nat),
    renumSpec n (xs ++ ys) i c =
      renumSpec n xs i c ++
        renumSpec n ys (i + xs.length) (c + xs.length + trigCount n xs i) := by
  intro xs
  induction xs with
  | nil => intro ys i c; simp [renumSpec, trigCount]
  | cons x rest ih =>
    intro ys i c
    rw [List.cons_append, renumSpec, renumSpec]
    by_cases h : summTrigger n x i
    · rw [if_pos h, if_pos h, ih]
      have h1 : i + 1 + rest.length = i + (x :: rest).length := by simp; omega
      have h2 : c + 2 + rest.length + trigCount n rest (i + 1) =
          c + (x :: rest).length + trigCount n (x :: rest) i := by
        rw [trigCount, if_pos h]
        simp
        omega
      rw [h1, h2]
      simp
    · rw [if_neg h, if_neg h, ih]
      have h1 : i + 1 + rest.length = i + (x :: rest).length := by simp; omega
      have h2 : c + 1 + rest.length + trigCount n rest (i + 1) =
          c + (x :: rest).length + trigCount n (x :: rest) i := by
        rw [trigCount, if_neg h]
        simp
        omega
      rw [h1, h2]
      simp

/-- Characterization of the remap table built by the renumbering fold, for
canonically numbered records (the record at relative position `j` carries
original id `i + 1 + j`): keys outside the processed range are untouched,
and the original id `i + 1 + j` maps to the running counter plus the
insertions among the first `j + 1` records. -/
theorem initAux_mapGet (n : Nat) :
    ∀ (rem : List PRec) (i c : Nat) (mp : List (Nat × Nat)) (acc : List PRec),
    (∀ j (hj : j < rem.length), (rem.get ⟨j, hj⟩).idx = i + 1 + j) →
    (∀ k, (k < i + 1 ∨ i + rem.length < k) →
      mapGet ((initAux n rem i c mp acc).2) k = mapGet mp k) ∧
    (∀ j (_hj : j < rem.length),
      mapGet ((initAux n rem i c mp acc).2) (i + 1 + j) =
        some (c + j + trigCount n (rem.take (j + 1)) i)) := by
  intro rem
  induction rem with
  | nil =>
    intro i c mp acc _
    exact ⟨fun k _ => rfl, fun j hj => absurd hj (by simp)⟩
  | cons r rest ih =>
    intro i c mp acc hcanon
    have hr : r.idx = i + 1 := by
      have hh := hcanon 0 (by simp)
      simpa using hh
    have hcanon2 : ∀ j (hj : j < rest.length),
        (rest.get ⟨j, hj⟩).idx = (i + 1) + 1 + j := by
      intro j hj
      have hh := hcanon (j + 1) (by simpa using Nat.succ_lt_succ hj)
      have hg : ((r :: rest).get ⟨j + 1, by simpa using Nat.succ_lt_succ hj⟩) =
          rest.get ⟨j, hj⟩ := rfl
      rw [hg] at hh
      rw [hh]
      omega
    by_cases htrig : summTrigger n r i
    · have hstep : (initAux n (r :: rest) i c mp acc).2 =
          (initAux n rest (i + 1) (c + 2)
            (upsert (upsert mp r.idx c) r.idx (c + 1))
            ((acc ++ [⟨r.thought, c, r.name, r.args⟩]) ++
              [create_summarization_step r.args c])).2 := by
        rw [initAux, if_pos htrig]
      rw [hstep]
      have ihres := ih (i + 1) (c + 2)
        (upsert (upsert mp r.idx c) r.idx (c + 1))
        ((acc ++ [⟨r.thought, c, r.name, r.args⟩]) ++
          [create_summarization_step r.args c]) hcanon2
      constructor
      · intro k hk
        have hk2 : k < (i + 1) + 1 ∨ (i + 1) + rest.length < k := by
          simp only [List.length_cons] at hk
          omega
        rw [ihres.1 k hk2]
        have hkne : k ≠ r.idx := by rw [hr]; simp only [List.length_cons] at hk; omega
        rw [mapGet_upsert_ne _ _ _ _ hkne, mapGet_upsert_ne _ _ _ _ hkne]
      · intro j hj
        cases j with
        | zero =>
          have hout : (i + 1 + 0) < (i + 1) + 1 ∨ (i + 1) + rest.length < i + 1 + 0 := by
            omega
          rw [ihres.1 (i + 1 + 0) hout]
          have : i + 1 + 0 = r.idx := by rw [hr]
          rw [this, mapGet_upsert_eq]
          have ht : trigCount n ((r :: rest).take (0 + 1)) i = 1 := by
            rw [List.take_succ_cons, List.take_zero, trigCount, if_pos htrig, trigCount]
          rw [ht]
        | succ j2 =>
          have hj2 : j2 < rest.length := by
            simp only [List.length_cons] at hj
            omega
          have hidx : i + 1 + (j2 + 1) = (i + 1) + 1 + j2 := by omega
          rw [hidx, ihres.2 j2 hj2]
          have ht : trigCount n ((r :: rest).take (j2 + 1 + 1)) i =
              1 + trigCount n (rest.take (j2 + 1)) (i + 1) := by
            rw [List.take_succ_cons, trigCount, if_pos htrig]
          rw [ht]
          exact congrArg some (by omega)
    · have hstep : (initAux n (r :: rest) i c mp acc).2 =
          (initAux n rest (i + 1) (c + 1) (upsert mp r.idx c)
            (acc ++ [⟨r.thought, c, r.name, r.args⟩])).2 := by
        rw [initAux, if_neg htrig]
      rw [hstep]
      have ihres := ih (i + 1) (c + 1) (upsert mp r.idx c)
        (acc ++ [⟨r.thought, c, r.name, r.args⟩]) hcanon2
      constructor
      · intro k hk
        have hk2 : k < (i + 1) + 1 ∨ (i + 1) + rest.length < k := by
          simp only [List.length_cons] at hk
          omega
        rw [ihres.1 k hk2]
        have hkne : k ≠ r.idx := by rw [hr]; simp only [List.length_cons] at hk; omega
        rw [mapGet_upsert_ne _ _ _ _ hkne]
      · intro j hj
        cases j with
        | zero =>
          have hout : (i + 1 + 0) < (i + 1) + 1 ∨ (i + 1) + rest.length < i + 1 + 0 := by
            omega
          rw [ihres.1 (i + 1 + 0) hout]
          have : i + 1 + 0 = r.idx := by rw [hr]
          rw [this, mapGet_upsert_eq]
          have ht : trigCount n ((r :: rest).take (0 + 1)) i = 0 := by
            rw [List.take_succ_cons, List.take_zero, trigCount, if_neg htrig, trigCount]
          rw [ht]
          exact congrArg some (by omega)
        | succ j2 =>
          have hj2 : j2 < rest.length := by
            simp only [List.length_cons] at hj
            omega
          have hidx : i + 1 + (j2 + 1) = (i + 1) + 1 + j2 := by omega
          rw [hidx, ihres.2 j2 hj2]
          have ht : trigCount n ((r :: rest).take (j2 + 1 + 1)) i =
              0 + trigCount n (rest.take (j2 + 1)) (i + 1) := by
            rw [List.take_succ_cons, trigCount, if_neg htrig]
          rw [ht]
          exact congrArg some (by omega)

/-- Claim C7 (counterexample).  Plan
`1. cortexsearch("q")  2. t2(x)  3. t3($\x7b2\x7d)  4. fuse()`: the search
step at the first position triggers an insertion, so the claim requires the
later reference to original id 2 to be shifted by one (to 3).  The final
record list still carries the unshifted `$\x7b2\x7d`, because
brace-delimited references are not rewritten at all. -/
theorem c7_counterexample :
    update_task_list_with_summarization
      [⟨"", 1, "cortexsearch", "\"q\""⟩, ⟨"", 2, "t2", "x"⟩,
       ⟨"", 3, "t3", "$\x7b2\x7d"⟩, ⟨"", 4, "fuse", ""⟩] =
    [⟨"", 1, "cortexsearch", "\"q\""⟩,
     ⟨"I need to concisely summarize the cortex search output", 2, "summarize",
      "Concisely give me \"q\" ONLY using the following context: $2. DO NOT include any other rationale."⟩,
     ⟨"", 3, "t2", "x"⟩, ⟨"", 4, "t3", "$\x7b2\x7d"⟩, ⟨"", 5, "fuse", ""⟩] ∧
    ("$\x7b2\x7d" : String) ≠ "$\x7b3\x7d" := by
  decide

/-- Claim C7 (amended).  For a canonically numbered plan
`pre ++ [search] ++ post` whose search-like record (at position
`p = pre.length`) is not the second-to-last, the renumbered record list
contains the synthetic summarize step immediately after the renumbered
search record (with id one past the search's new id), and the remap table
sends every original id `k ∈ {1, …, n}` to
`k + (number of insertion-triggering records among the first k)` — so
`$N`-form references to ids at or beyond the position after the search are
shifted by exactly one per insertion at or before them, in particular by at
least one more than references confined to `pre`.  (`$\x7bN\x7d`-form
references are not rewritten; see the counterexample.) -/
theorem c7_insertion_and_shift (pre post : List PRec) (srec : PRec)
    (hcanon : ∀ j (hj : j < (pre ++ srec :: post).length),
      ((pre ++ srec :: post).get ⟨j, hj⟩).idx = j + 1)
    (hsearch : containsSub ("cortexsearch".data) srec.name.data = true)
    (hnotpen : pre.length + 2 ≠ (pre ++ srec :: post).length) :
    (update_task_list_with_summarization (pre ++ srec :: post) =
      (renumSpec (pre ++ srec :: post).length pre 0 1).map
        (fun r => update_task_references r
          (init_task_list (pre ++ srec :: post)).2) ++
      (update_task_references
          ⟨srec.thought, 1 + pre.length +
            trigCount (pre ++ srec :: post).length pre 0, srec.name, srec.args⟩
          (init_task_list (pre ++ srec :: post)).2 ::
        update_task_references
          (create_summarization_step srec.args
            (1 + pre.length + trigCount (pre ++ srec :: post).length pre 0))
          (init_task_list (pre ++ srec :: post)).2 ::
        (renumSpec (pre ++ srec :: post).length post (pre.length + 1)
            (1 + pre.length + trigCount (pre ++ srec :: post).length pre 0 + 2)).map
          (fun r => update_task_references r
            (init_task_list (pre ++ srec :: post)).2))) ∧
    (update_task_references
      (create_summarization_step srec.args
        (1 + pre.length + trigCount (pre ++ srec :: post).length pre 0))
      (init_task_list (pre ++ srec :: post)).2).name = "summarize" ∧
    (update_task_references
      (create_summarization_step srec.args
        (1 + pre.length + trigCount (pre ++ srec :: post).length pre 0))
      (init_task_list (pre ++ srec :: post)).2).idx =
      1 + pre.length + trigCount (pre ++ srec :: post).length pre 0 + 1 ∧
    (∀ k, 1 ≤ k → k ≤ (pre ++ srec :: post).length →
      mapGet (init_task_list (pre ++ srec :: post)).2 k =
        some (k + trigCount (pre ++ srec :: post).length
          ((pre ++ srec :: post).take k) 0)) ∧
    (∀ k, pre.length + 2 ≤ k → k ≤ (pre ++ srec :: post).length →
      trigCount (pre ++ srec :: post).length pre 0 + 1 ≤
        trigCount (pre ++ srec :: post).length ((pre ++ srec :: post).take k) 0) := by
  have htrigS2 : summTrigger (pre ++ srec :: post).length srec pre.length = true := by
    rw [summTrigger, hsearch]
    simp only [Bool.true_and, bne_iff_ne, ne_eq]
    omega
  have hfst : (init_task_list (pre ++ srec :: post)).1 =
      renumSpec (pre ++ srec :: post).length (pre ++ srec :: post) 0 1 := by
    rw [init_task_list, initAux_fst]
    simp
  have hsplit : renumSpec (pre ++ srec :: post).length (pre ++ srec :: post) 0 1 =
      renumSpec (pre ++ srec :: post).length pre 0 1 ++
        (⟨srec.thought, 1 + pre.length +
            trigCount (pre ++ srec :: post).length pre 0, srec.name, srec.args⟩ ::
          create_summarization_step srec.args
            (1 + pre.length + trigCount (pre ++ srec :: post).length pre 0) ::
          renumSpec (pre ++ srec :: post).length post (pre.length + 1)
            (1 + pre.length + trigCount (pre ++ srec :: post).length pre 0 + 2)) := by
    rw [renumSpec_append]
    simp only [Nat.zero_add]
    rw [renumSpec, if_pos htrigS2]
  have hA : update_task_list_with_summarization (pre ++ srec :: post) =
      (renumSpec (pre ++ srec :: post).length pre 0 1).map
        (fun r => update_task_references r
          (init_task_list (pre ++ srec :: post)).2) ++
      (update_task_references
          ⟨srec.thought, 1 + pre.length +
            trigCount (pre ++ srec :: post).length pre 0, srec.name, srec.args⟩
          (init_task_list (pre ++ srec :: post)).2 ::
        update_task_references
          (create_summarization_step srec.args
            (1 + pre.length + trigCount (pre ++ srec :: post).length pre 0))
          (init_task_list (pre ++ srec :: post)).2 ::
        (renumSpec (pre ++ srec :: post).length post (pre.length + 1)
            (1 + pre.length + trigCount (pre ++ srec :: post).length pre 0 + 2)).map
          (fun r => update_task_references r
            (init_task_list (pre ++ srec :: post)).2)) := by
    rw [update_task_list_with_summarization, hfst, hsplit]
    rw [List.map_append, List.map_cons, List.map_cons]
  have hcanon0 : ∀ j (hj : j < (pre ++ srec :: post).length),
      ((pre ++ srec :: post).get ⟨j, hj⟩).idx = 0 + 1 + j := by
    intro j hj
    rw [hcanon j hj]
    omega
  have hmapchar := initAux_mapGet (pre ++ srec :: post).length
    (pre ++ srec :: post) 0 1 [] [] hcanon0
  have hC : ∀ k, 1 ≤ k → k ≤ (pre ++ srec :: post).length →
      mapGet (init_task_list (pre ++ srec :: post)).2 k =
        some (k + trigCount (pre ++ srec :: post).length
          ((pre ++ srec :: post).take k) 0) := by
    intro k hk1 hk2
    have hj : k - 1 < (pre ++ srec :: post).length := by omega
    have hmg := hmapchar.2 (k - 1) hj
    have hidx : 0 + 1 + (k - 1) = k := by omega
    rw [hidx] at hmg
    have htake : k - 1 + 1 = k := by omega
    rw [htake] at hmg
    have hsnd : (init_task_list (pre ++ srec :: post)).2 =
        (initAux (pre ++ srec :: post).length (pre ++ srec :: post) 0 1 [] []).2 :=
      rfl
    rw [hsnd, hmg]
  have hD : ∀ k, pre.length + 2 ≤ k → k ≤ (pre ++ srec :: post).length →
      trigCount (pre ++ srec :: post).length pre 0 + 1 ≤
        trigCount (pre ++ srec :: post).length ((pre ++ srec :: post).take k) 0 := by
    intro k hk1 hk2
    have htake : (pre ++ srec :: post).take k =
        pre ++ (srec :: post).take (k - pre.length) := by
      rw [List.take_append_eq_append_take]
      rw [List.take_of_length_le (by omega)]
    rw [htake, trigCount_append]
    simp only [Nat.zero_add]
    have hkp : k - pre.length = (k - pre.length - 1) + 1 := by omega
    rw [hkp, List.take_succ_cons]
    rw [trigCount, if_pos htrigS2]
    omega
  exact ⟨hA, rfl, rfl, hC, hD⟩

/-- Witness for `c7_insertion_and_shift` on the plan
`1. ta(a)  2. cortexsearch("q")  3. tb($2)  4. fuse()` (stated in evaluated
form). -/
theorem c7_witness :
    (update_task_list_with_summarization
      [⟨"", 1, "ta", "a"⟩, ⟨"", 2, "cortexsearch", "\"q\""⟩,
       ⟨"", 3, "tb", "$2"⟩, ⟨"", 4, "fuse", ""⟩] =
    [⟨"", 1, "ta", "a"⟩, ⟨"", 2, "cortexsearch", "\"q\""⟩,
     ⟨"I need to concisely summarize the cortex search output", 3, "summarize",
      "Concisely give me \"q\" ONLY using the following context: $3. DO NOT include any other rationale."⟩,
     ⟨"", 4, "tb", "$3"⟩, ⟨"", 5, "fuse", ""⟩]) ∧
    (update_task_references
      (create_summarization_step "\"q\"" 2)
      (init_task_list
        [⟨"", 1, "ta", "a"⟩, ⟨"", 2, "cortexsearch", "\"q\""⟩,
         ⟨"", 3, "tb", "$2"⟩, ⟨"", 4, "fuse", ""⟩]).2).name = "summarize" ∧
    (update_task_references
      (create_summarization_step "\"q\"" 2)
      (init_task_list
        [⟨"", 1, "ta", "a"⟩, ⟨"", 2, "cortexsearch", "\"q\""⟩,
         ⟨"", 3, "tb", "$2"⟩, ⟨"", 4, "fuse", ""⟩]).2).idx = 3 ∧
    mapGet (init_task_list
        [⟨"", 1, "ta", "a"⟩, ⟨"", 2, "cortexsearch", "\"q\""⟩,
         ⟨"", 3, "tb", "$2"⟩, ⟨"", 4, "fuse", ""⟩]).2 3 =
      some (3 + trigCount 4
        ([(⟨"", 1, "ta", "a"⟩ : PRec), ⟨"", 2, "cortexsearch", "\"q\""⟩,
          ⟨"", 3, "tb", "$2"⟩, ⟨"", 4, "fuse", ""⟩].take 3) 0) ∧
    1 ≤ trigCount 4
        ([(⟨"", 1, "ta", "a"⟩ : PRec), ⟨"", 2, "cortexsearch", "\"q\""⟩,
          ⟨"", 3, "tb", "$2"⟩, ⟨"", 4, "fuse", ""⟩].take 4) 0 :=
  ⟨(c7_insertion_and_shift [⟨"", 1, "ta", "a"⟩]
      [⟨"", 3, "tb", "$2"⟩, ⟨"", 4, "fuse", ""⟩]
      ⟨"", 2, "cortexsearch", "\"q\""⟩
      (by decide) (by decide) (by decide)).1,
   (c7_insertion_and_shift [⟨"", 1, "ta", "a"⟩]
      [⟨"", 3, "tb", "$2"⟩, ⟨"", 4, "fuse", ""⟩]
      ⟨"", 2, "cortexsearch", "\"q\""⟩
      (by decide) (by decide) (by decide)).2.1,
   (c7_insertion_and_shift [⟨"", 1, "ta", "a"⟩]
      [⟨"", 3, "tb", "$2"⟩, ⟨"", 4, "fuse", ""⟩]
      ⟨"", 2, "cortexsearch", "\"q\""⟩
      (by decide) (by decide) (by decide)).2.2.1,
   (c7_insertion_and_shift [⟨"", 1, "ta", "a"⟩]
      [⟨"", 3, "tb", "$2"⟩, ⟨"", 4, "fuse", ""⟩]
      ⟨"", 2, "cortexsearch", "\"q\""⟩
      (by decide) (by decide) (by decide)).2.2.2.1 3 (by decide) (by decide),
   (c7_insertion_and_shift [⟨"", 1, "ta", "a"⟩]
      [⟨"", 3, "tb", "$2"⟩, ⟨"", 4, "fuse", ""⟩]
      ⟨"", 2, "cortexsearch", "\"q\""⟩
      (by decide) (by decide) (by decide)).2.2.2.2 4 (by decide) (by decide)⟩
